import Mathlib

/-!
# Verification of the Universal Controller core

Shallow embedding of `custom_components/universal_controller` (execution
engine, JavaScript-to-Python transpiler, ticker/scheduler, entity execution
path) and proofs about the spec's claims.

Strings are modelled as `List Char`; the Python `str` operations used by the
source (`in`, `replace`, `split`, `strip`, `rstrip`, `startswith`) are
translated below with matching semantics (left-to-right, non-overlapping
scans for `replace`/`split`).
-/

set_option maxHeartbeats 1000000

namespace UniControl

/-- Python `str.isspace` characters that can occur in source scripts. -/
def isPySpace (c : Char) : Bool :=
  c == ' ' || c == '\t' || c == '\n' || c == '\r' || c == '\x0b' || c == '\x0c'

/-- Python `str.lstrip()`. -/
def pyLStrip (s : List Char) : List Char := s.dropWhile isPySpace

/-- Python `str.rstrip()`. -/
def pyRStrip (s : List Char) : List Char := (s.reverse.dropWhile isPySpace).reverse

/-- Python `str.strip()`. -/
def pyStrip (s : List Char) : List Char := pyLStrip (pyRStrip s)

/-- Python `str.rstrip(";")`: drop every trailing semicolon. -/
def rstripSemi (s : List Char) : List Char := (s.reverse.dropWhile (· == ';')).reverse

/-- Python `p in s` (substring containment). -/
def containsSub (p : List Char) : List Char → Bool
  | [] => p.isEmpty
  | c :: t => p.isPrefixOf (c :: t) || containsSub p t

/-- Fuelled worker for `replaceAll`.  The fuel argument only serves to make
the left-to-right non-overlapping scan structurally recursive; with fuel
`s.length` it never runs out (each step consumes at least one character). -/
def replaceAllF (p r : List Char) : Nat → List Char → List Char
  | _, [] => []
  | 0, s => s
  | fuel + 1, c :: t =>
    if !p.isEmpty && p.isPrefixOf (c :: t) then
      r ++ replaceAllF p r fuel ((c :: t).drop p.length)
    else
      c :: replaceAllF p r fuel t

/-- Python `s.replace(p, r)` for a non-empty pattern `p`: replace every
occurrence, scanning left to right without overlap.  (All patterns used by
the source are non-empty.) -/
def replaceAll (p r s : List Char) : List Char := replaceAllF p r s.length s

/-- Fuelled worker for `splitOnSub` (same fuel discipline as `replaceAllF`). -/
def splitOnSubF (sep : List Char) : Nat → List Char → List (List Char)
  | _, [] => [[]]
  | 0, s => [s]
  | fuel + 1, c :: t =>
    if !sep.isEmpty && sep.isPrefixOf (c :: t) then
      [] :: splitOnSubF sep fuel ((c :: t).drop sep.length)
    else
      match splitOnSubF sep fuel t with
      | [] => [[c]]
      | h :: tl => (c :: h) :: tl

/-- Python `s.split(sep)` for a non-empty separator string. -/
def splitOnSub (sep s : List Char) : List (List Char) := splitOnSubF sep s.length s

/-- Python `s.split(sep)` for a single-character separator. -/
def splitOnChar (sep : Char) : List Char → List (List Char)
  | [] => [[]]
  | c :: t =>
    if c == sep then [] :: splitOnChar sep t
    else
      match splitOnChar sep t with
      | [] => [[c]]
      | h :: tl => (c :: h) :: tl

/-- Numeric value of a decimal digit string (denotation of a numeral). -/
def parseNatL (s : List Char) : Nat :=
  s.foldl (fun n c => 10 * n + (c.toNat - '0'.toNat)) 0

/-- ASCII decimal digit test (Python operand digits). -/
def isDigitC (c : Char) : Bool :=
  c == '0' || c == '1' || c == '2' || c == '3' || c == '4' ||
  c == '5' || c == '6' || c == '7' || c == '8' || c == '9'

/-- The ten decimal digit characters. -/
def digitChars : List Char := ['0','1','2','3','4','5','6','7','8','9']

/-! ## The transpiler `TypeScriptExecutionEngine._convert_basic_js_to_python`
(execution_engine.py lines 389-420). -/

/-- The ordered replacement table of `_convert_basic_js_to_python`
(execution_engine.py lines 394-407), applied with `str.replace` in order. -/
def jsReplacements : List (List Char × List Char) :=
  [ (['n','e','w',' ','D','a','t','e','(',')'],
     ['D','a','t','e','[','\'','n','o','w','\'',']','(',')']),
    (['c','o','n','s','o','l','e','.','l','o','g'],
     ['c','o','n','s','o','l','e','[','\'','l','o','g','\'',']']),
    (['c','o','n','s','o','l','e','.','e','r','r','o','r'],
     ['c','o','n','s','o','l','e','[','\'','e','r','r','o','r','\'',']']),
    (['c','o','n','s','o','l','e','.','w','a','r','n'],
     ['c','o','n','s','o','l','e','[','\'','w','a','r','n','\'',']']),
    (['c','o','n','s','t',' '], []),
    (['l','e','t',' '], []),
    (['v','a','r',' '], []),
    (['=','=','='], ['=','=']),
    (['!','=','='], ['!','=']),
    (['t','r','u','e'], ['T','r','u','e']),
    (['f','a','l','s','e'], ['F','a','l','s','e']),
    (['n','u','l','l'], ['N','o','n','e']) ]

/-- The replacement loop of `_convert_basic_js_to_python` (lines 409-410). -/
def applyReplacements (s : List Char) : List Char :=
  jsReplacements.foldl (fun acc pr => replaceAll pr.1 pr.2 acc) s

/-- The literal `"return "`. -/
def retKw : List Char := ['r','e','t','u','r','n',' ']

/-- The literal `"def "`. -/
def defKw : List Char := ['d','e','f',' ']

/-- The per-line condition of the loop at execution_engine.py lines 415-416:
`"return " in line and not line.strip().startswith("#")`. -/
def lineHasReturn (l : List Char) : Bool :=
  containsSub retKw l && !(['#'].isPrefixOf (pyStrip l))

/-- The extraction at execution_engine.py lines 417-418:
`line.split("return ")[1].strip()` followed by `.rstrip(";")`.
(`[1]` is the segment between the first and second occurrence of
`"return "`; `getD` returns `[]` in the impossible out-of-range case.) -/
def extractReturn (l : List Char) : List Char :=
  rstripSemi (pyStrip ((splitOnSub retKw l).getD 1 []))

/-- The return-statement handling of `_convert_basic_js_to_python`
(lines 412-420): on the first non-comment line containing `"return "`,
return the extracted expression; otherwise return the code unchanged. -/
def handleReturn (s : List Char) : List Char :=
  if containsSub retKw s && !(defKw.isPrefixOf (pyStrip s)) then
    match (splitOnChar '\n' s).find? lineHasReturn with
    | some l => extractReturn l
    | none => s
  else s

/-- `TypeScriptExecutionEngine._convert_basic_js_to_python` (lines 389-420):
the ordered textual replacements followed by return-statement handling. -/
def convertBasicJsToPython (s : List Char) : List Char :=
  handleReturn (applyReplacements s)

/-- Claim-side description (spec refinement target, written from the words of
claim C9, not from the source): the conversion's output is "only the text
following the first `return ` occurrence on the first such line (with a
trailing semicolon stripped)".  The text following the first occurrence is
the join of all split segments after the first. -/
def claimReturnExtract (s : List Char) : List Char :=
  match (splitOnChar '\n' s).find? (fun l => containsSub retKw l) with
  | some l => rstripSemi (List.intercalate retKw (splitOnSub retKw l).tail)
  | none => s

/-! ## The execution engine `TypeScriptExecutionEngine`
(execution_engine.py).

The V8 backend (`py_mini_racer`) and the host Python `eval` are external
collaborators: their evaluation of a script is a parameter (`V8Eval`,
`PyOutcome`).  Everything the engine itself does — backend selection, the
empty-script short-circuit, timeout and exception wrapping, and the
service-call dispatch loop — is translated from the source. -/

/-- JSON-like values crossing the sandbox boundary.  `py_mini_racer`
converts JavaScript `undefined`/`null` to Python `None`, modelled as
`null`. -/
inductive JsValue
  | null
  | bool (b : Bool)
  | num (n : Int)
  | str (s : List Char)
deriving DecidableEq

/-- A queued outbound service call (an entry of the JavaScript
`_serviceCalls` object, execution_engine.py lines 75-79). -/
structure QueuedCall where
  domain : List Char
  service : List Char
  data : List (List Char × JsValue)
deriving DecidableEq

/-- Outcome of the external V8 engine evaluating the wrapped user code
(execution_engine.py lines 196-221): the wrapper always returns an object
with fields `result` and `serviceCalls` when evaluation completes; otherwise
the evaluation raises or `asyncio.wait_for` times out. -/
inductive V8Eval
  | completes (result : JsValue) (serviceCalls : List QueuedCall)
  | timesOut
  | raises (msg : List Char)

/-- Outcome of the host Python `eval` on the converted code
(execution_engine.py lines 251-256). -/
inductive PyOutcome
  | ok (v : JsValue)
  | raises (msg : List Char)
  | timesOut

/-- The spec's error taxonomy (`SyntaxError`/`RuntimeError`/`Timeout`);
used to classify what the engine actually raises. -/
inductive ErrKind
  | syntaxErr
  | runtimeErr
  | timeoutErr
deriving DecidableEq

/-- Result of `TypeScriptExecutionEngine.execute`: the returned value, or
the exception the method raises (`raise RuntimeError(...)`, line 38). -/
inductive EngineResult
  | success (v : JsValue)
  | failure (kind : ErrKind) (msg : List Char)
deriving DecidableEq

/-- The error classification of an engine result, if it is a failure. -/
def EngineResult.kindOf : EngineResult → Option ErrKind
  | .success _ => none
  | .failure k _ => some k

/-- `"Code execution failed: "` (execution_engine.py line 38). -/
def codeFailMsg : List Char :=
  ['C','o','d','e',' ','e','x','e','c','u','t','i','o','n',' ',
   'f','a','i','l','e','d',':',' ']

/-- `"Python fallback execution error: "` (execution_engine.py line 265). -/
def fallbackMsg : List Char :=
  ['P','y','t','h','o','n',' ','f','a','l','l','b','a','c','k',' ',
   'e','x','e','c','u','t','i','o','n',' ','e','r','r','o','r',':',' ']

/-- `str(asyncio.TimeoutError())` is the empty string. -/
def timeoutStr : List Char := []

/-- `TypeScriptExecutionEngine.execute` (lines 23-38) composed with
`_execute_with_v8` (lines 40-239) and `_execute_with_python_fallback`
(lines 241-265).  Returns the engine result together with the dispatch
trace: the queued calls attempted by the dispatch loop at lines 226-235, in
order, paired with the host's per-call success (`host`).  On a timeout or an
evaluation error, `asyncio.wait_for` raises before the dispatch loop, so the
trace is empty; the exception reaches the generic handler at line 36 and is
re-raised as `RuntimeError("Code execution failed: ...")`.  When
`py_mini_racer` is unavailable (`v8Available = false`), the `ImportError`
branch at line 33 runs the Python fallback on the converted code; its errors
are wrapped at line 265 and again at line 38. -/
def engineExecute (v8Available : Bool) (host : QueuedCall → Bool)
    (ev : V8Eval) (py : List Char → PyOutcome) (code : List Char) :
    EngineResult × List (QueuedCall × Bool) :=
  if (pyStrip code).isEmpty then (.success .null, [])
  else if v8Available then
    match ev with
    | .completes r calls => (.success r, calls.map (fun c => (c, host c)))
    | .timesOut => (.failure .runtimeErr (codeFailMsg ++ timeoutStr), [])
    | .raises m => (.failure .runtimeErr (codeFailMsg ++ m), [])
  else
    match py (convertBasicJsToPython code) with
    | .ok v => (.success v, [])
    | .raises m => (.failure .runtimeErr (codeFailMsg ++ fallbackMsg ++ m), [])
    | .timesOut => (.failure .runtimeErr (codeFailMsg ++ fallbackMsg ++ timeoutStr), [])

/-- Model of the external V8 engine evaluating the wrapper of lines 196-213
on a script that is a single expression statement (no `return`, no control
flow): per ECMAScript, the inner immediately-invoked function wrapping the
code returns `undefined` because an expression statement contributes no
return value, so the wrapper completes with `result = undefined` (`null`
after conversion) and no queued service calls. -/
def v8ExprStatementEval : V8Eval := .completes .null []

/-- Model of the host Python `eval` (an external collaborator) restricted to
integer-addition expression scripts such as `"12 + 7"`: split on `+`, strip
each operand, and sum the numerals; anything else raises. -/
def pyEvalAddition (s : List Char) : Option Nat :=
  let parts := (splitOnChar '+' s).map pyStrip
  if parts.all (fun p => !p.isEmpty && p.all isDigitC) then
    some (parts.map parseNatL).sum
  else none

/-- The Python-`eval` oracle built from `pyEvalAddition`. -/
def additionOracle (s : List Char) : PyOutcome :=
  match pyEvalAddition s with
  | some n => .ok (.num n)
  | none => .raises ['e','r','r']

/-! ## The ticker `TickerInstance` (ticker_manager.py lines 126-228). -/

/-- State of one `TickerInstance`.  `hasTimer` models
`_cancel_callback is not None` (a live periodic timer).  Timestamps are
abstract integers supplied by the caller (`datetime.now()`). -/
structure TickerInstance where
  interval : Int
  is_running : Bool
  hasTimer : Bool
  last_execution : Option Int
  next_execution : Option Int
  execution_count : Nat
  error_count : Nat
  last_error : Option (List Char)
deriving DecidableEq

/-- `TickerInstance.__init__` (lines 129-150). -/
def TickerInstance.init (interval : Int) : TickerInstance :=
  { interval := interval, is_running := false, hasTimer := false,
    last_execution := none, next_execution := none,
    execution_count := 0, error_count := 0, last_error := none }

/-- `TickerInstance.start` (lines 152-167). -/
def TickerInstance.start (t : TickerInstance) (now : Int) : TickerInstance :=
  if t.is_running then t
  else
    { t with is_running := true, next_execution := some (now + t.interval),
             hasTimer := true }

/-- `TickerInstance.stop` (lines 169-181). -/
def TickerInstance.stop (t : TickerInstance) : TickerInstance :=
  if !t.is_running then t
  else
    { t with is_running := false, hasTimer := false, next_execution := none }

/-- Outcome of the awaited call inside `TickerInstance._execute`
(`await self.manager.execute_entity(...)`, line 200): it either returns or
raises with a message. -/
inductive ExecOutcome
  | success
  | failure (msg : List Char)
deriving DecidableEq

/-- `TickerInstance._execute` (lines 195-227), the body guarded by the
per-entity `_execution_lock` (sequential composition of steps is therefore
the faithful semantics).  On success: `execution_count += 1`,
`last_error = None`.  On failure: `error_count += 1`, `last_error = str(err)`,
and the ticker stops itself when `error_count >= 5` (line 222). -/
def TickerInstance.execStep (t : TickerInstance) (now : Int) :
    ExecOutcome → TickerInstance
  | .success =>
    { t with last_execution := some now,
             execution_count := t.execution_count + 1, last_error := none }
  | .failure m =>
    let t1 := { t with last_execution := some now,
                       error_count := t.error_count + 1, last_error := some m }
    if 5 ≤ t1.error_count then t1.stop else t1

/-- A sequence of serialized executions with the given outcomes. -/
def runTrace (t : TickerInstance) (os : List ExecOutcome) : TickerInstance :=
  os.foldl (fun acc o => acc.execStep 0 o) t

/-- Whether an outcome is a failure. -/
def ExecOutcome.isFailure : ExecOutcome → Bool
  | .success => false
  | .failure _ => true

/-- The spec's "consecutive failures": failures since the last success,
i.e. the length of the trailing failure run of the outcome trace. -/
def consecutiveFailures (os : List ExecOutcome) : Nat :=
  (os.reverse.takeWhile ExecOutcome.isFailure).length

/-! ## The ticker manager `TickerManager` (ticker_manager.py lines 17-123),
modelled as an insertion-ordered map from entity id to `TickerInstance`. -/

/-- The `_tickers` dict of `TickerManager`. -/
def TickerMap := List (String × TickerInstance)

/-- `self._tickers.get(entity_id)`. -/
def lookupTicker (m : TickerMap) (e : String) : Option TickerInstance :=
  (List.find? (fun p => p.1 == e) m).map (fun p => p.2)

/-- Removal of an entity's entry (`del self._tickers[entity_id]`). -/
def removeTicker (m : TickerMap) (e : String) : TickerMap :=
  List.filter (fun p => !(p.1 == e)) m

/-- `TickerManager.stop_ticker` (lines 65-71): the instance's `stop()` is
called and the (now unreachable) instance is removed from the dict. -/
def stopTickerMap (m : TickerMap) (e : String) : TickerMap :=
  removeTicker m e

/-- `TickerManager.start_ticker` (lines 43-63): reject a non-positive
interval, otherwise stop any existing ticker, create a fresh
`TickerInstance` and start it. -/
def startTickerMap (m : TickerMap) (e : String) (interval : Int) (now : Int) :
    TickerMap :=
  if interval ≤ 0 then m
  else ((e, (TickerInstance.init interval).start now) :: stopTickerMap m e)

/-- `TickerManager.restart_ticker` (lines 73-76): `stop_ticker` then
`start_ticker`. -/
def restartTickerMap (m : TickerMap) (e : String) (interval : Int) (now : Int) :
    TickerMap :=
  startTickerMap (stopTickerMap m e) e interval now

/-! ## The entity execution path
(`UniversalControllerEntity._execute_typescript`, sensor.py lines 167-195,
and `TickerManager.execute_entity`, ticker_manager.py lines 99-110). -/

/-- The entity's `_state` string: `"idle"`, `"executing"`, `"error"`, or the
rendered result (`json.dumps(result)` / `str(result)`, lines 183-186). -/
inductive EntityDisplay
  | idle
  | executing
  | errorDisplay
  | rendered (v : JsValue)
deriving DecidableEq

/-- Execution-tracking state of `UniversalControllerEntity`
(sensor.py lines 94-99). -/
structure EntityState where
  typescript_code : List Char
  last_execution : Option Int
  execution_count : Nat
  last_error : Option (List Char)
  display : EntityDisplay
  execution_result : Option JsValue
deriving DecidableEq

/-- `UniversalControllerEntity._execute_typescript` (sensor.py lines
167-195).  The `try` block sets `_state = "executing"`, `_last_execution`,
increments `_execution_count` and clears `_last_error` before awaiting the
engine; a raised `RuntimeError(msg)` is caught by the `except Exception`
arm, which records `str(err)` and sets `_state = "error"`.  The function
therefore never propagates an engine error. -/
def executeTypescript (e : EntityState) (now : Int) (v8 : Bool)
    (host : QueuedCall → Bool) (ev : V8Eval) (py : List Char → PyOutcome) :
    EntityState :=
  if (pyStrip e.typescript_code).isEmpty then e
  else
    match engineExecute v8 host ev py e.typescript_code with
    | (.success v, _) =>
      { e with display := .rendered v, last_execution := some now,
               execution_count := e.execution_count + 1, last_error := none,
               execution_result := some v }
    | (.failure _ m, _) =>
      { e with display := .errorDisplay, last_execution := some now,
               execution_count := e.execution_count + 1,
               last_error := some m, execution_result := none }

/-- `TickerManager.execute_entity` (ticker_manager.py lines 99-110): a
missing entity only logs; otherwise `entity._execute_typescript()` is
awaited inside `try/except Exception`, so no exception ever escapes —
the function is total. -/
def managerExecuteEntity (registered : Bool) (e : EntityState) (now : Int)
    (v8 : Bool) (host : QueuedCall → Bool) (ev : V8Eval)
    (py : List Char → PyOutcome) : EntityState :=
  if registered then executeTypescript e now v8 host ev py else e

/-- One timer-driven execution: `TickerInstance._execute` (lines 195-227)
awaiting `TickerManager.execute_entity`.  Since `execute_entity` absorbs
every exception, the awaited call never raises and `_execute` always takes
its success branch. -/
def tickerFire (e : EntityState) (t : TickerInstance) (registered : Bool)
    (now : Int) (v8 : Bool) (host : QueuedCall → Bool) (ev : V8Eval)
    (py : List Char → PyOutcome) : EntityState × TickerInstance :=
  (managerExecuteEntity registered e now v8 host ev py,
   t.execStep now .success)

/-! ## Interleaving model for per-entity executions (claim C3).

Timer fires run `TickerInstance._execute`, whose body is guarded by
`async with self._execution_lock` (ticker_manager.py line 197): the lock is
granted only when free.  The manual path (`execute_now_service`,
__init__.py lines 148-161) awaits `entity_obj._execute_typescript()`
directly; no lock is acquired anywhere on that call chain. -/

/-- Executions of one entity currently in flight, split by path. -/
structure ConcState where
  lockHeld : Bool
  lockedRunning : Nat
  manualRunning : Nat
deriving DecidableEq

/-- Interleaving events: a timer-fired execution entering (acquiring the
lock) and leaving (releasing it), and a manual `execute_now` execution
entering and leaving (no lock on its path). -/
inductive ConcEvent
  | timerEnter
  | timerExit
  | manualEnter
  | manualExit
deriving DecidableEq

/-- One scheduling step.  `timerEnter` is enabled only when the lock is
free (`async with` blocks otherwise); `manualEnter` is always enabled
because `execute_now_service` calls `_execute_typescript` without touching
`_execution_lock`. -/
def concStep (s : ConcState) : ConcEvent → Option ConcState
  | .timerEnter =>
    if s.lockHeld then none
    else some { s with lockHeld := true, lockedRunning := s.lockedRunning + 1 }
  | .timerExit =>
    if s.lockedRunning = 0 then none
    else some { s with lockHeld := false, lockedRunning := s.lockedRunning - 1 }
  | .manualEnter =>
    some { s with manualRunning := s.manualRunning + 1 }
  | .manualExit =>
    if s.manualRunning = 0 then none
    else some { s with manualRunning := s.manualRunning - 1 }

/-- Run a sequence of scheduling events. -/
def concRun (s : ConcState) : List ConcEvent → Option ConcState
  | [] => some s
  | ev :: rest =>
    match concStep s ev with
    | none => none
    | some s' => concRun s' rest

/-- Initial state: no execution in flight. -/
def concInit : ConcState := { lockHeld := false, lockedRunning := 0, manualRunning := 0 }

/-- Number of executions of the entity currently in flight. -/
def inFlight (s : ConcState) : Nat := s.lockedRunning + s.manualRunning

/-! ## Toolkit lemmas for the string model -/

theorem digit_cases {c : Char} (h : isDigitC c = true) :
    c = '0' ∨ c = '1' ∨ c = '2' ∨ c = '3' ∨ c = '4' ∨
    c = '5' ∨ c = '6' ∨ c = '7' ∨ c = '8' ∨ c = '9' := by
  have h' := h
  simp only [isDigitC, Bool.or_eq_true, beq_iff_eq] at h'
  tauto

theorem ne_of_isDigitC {c d : Char} (hc : isDigitC c = true)
    (hd : isDigitC d = false) : c ≠ d := by
  intro he
  subst he
  rw [hc] at hd
  cases hd

theorem isPySpace_of_digit {c : Char} (h : isDigitC c = true) :
    isPySpace c = false := by
  rcases digit_cases h with rfl | rfl | rfl | rfl | rfl | rfl | rfl | rfl | rfl | rfl <;>
    decide

theorem replaceAllF_congr (p r : List Char) :
    ∀ (f1 f2 : Nat) (s : List Char), s.length ≤ f1 → s.length ≤ f2 →
      replaceAllF p r f1 s = replaceAllF p r f2 s := by
  intro f1
  induction f1 with
  | zero =>
    intro f2 s h1 _
    have hs : s = [] := List.length_eq_zero.mp (Nat.le_zero.mp h1)
    subst hs
    cases f2 <;> rfl
  | succ f1 ih =>
    intro f2 s h1 h2
    match s with
    | [] => cases f2 <;> rfl
    | c :: t =>
      match f2 with
      | 0 => exact absurd h2 (by simp)
      | f2 + 1 =>
        simp only [List.length_cons] at h1 h2
        simp only [replaceAllF]
        by_cases hc : (!p.isEmpty && p.isPrefixOf (c :: t)) = true
        · rw [if_pos hc, if_pos hc]
          have hp : p ≠ [] := by
            intro h
            subst h
            simp at hc
          have hplen : 1 ≤ p.length := List.length_pos.mpr hp
          have hd : ((c :: t).drop p.length).length ≤ f1 := by
            rw [List.length_drop]
            simp only [List.length_cons]
            omega
          have hd2 : ((c :: t).drop p.length).length ≤ f2 := by
            rw [List.length_drop]
            simp only [List.length_cons]
            omega
          rw [ih f2 _ hd hd2]
        · rw [if_neg hc, if_neg hc]
          have ht : t.length ≤ f1 := by omega
          have ht2 : t.length ≤ f2 := by omega
          rw [ih f2 t ht ht2]

theorem replaceAll_skip {p : List Char} (r : List Char) {c : Char}
    {t : List Char} (h : p.isPrefixOf (c :: t) = false) :
    replaceAll p r (c :: t) = c :: replaceAll p r t := by
  unfold replaceAll
  simp only [List.length_cons, replaceAllF, h, Bool.and_false, Bool.false_eq_true,
    if_false]

theorem replaceAll_fire {p : List Char} (r : List Char) (s : List Char)
    (hp : p ≠ []) : replaceAll p r (p ++ s) = r ++ replaceAll p r s := by
  match p, hp with
  | x :: p', _ =>
    have hpre : (x :: p').isPrefixOf (x :: (p' ++ s)) = true := by
      rw [← List.cons_append]
      exact List.isPrefixOf_iff_prefix.mpr (List.prefix_append _ _)
    have hdrop : (x :: (p' ++ s)).drop (p'.length + 1) = s := by
      rw [List.drop_succ_cons]
      exact List.drop_left p' s
    unfold replaceAll
    rw [List.cons_append]
    simp only [List.length_cons, replaceAllF]
    rw [if_pos (by simp [hpre]), hdrop]
    congr 1
    exact replaceAllF_congr _ _ _ _ _ (by simp) le_rfl

theorem containsSub_nil (p : List Char) : containsSub p [] = p.isEmpty := rfl

theorem containsSub_cons (p : List Char) (c : Char) (t : List Char) :
    containsSub p (c :: t) = (p.isPrefixOf (c :: t) || containsSub p t) := rfl

theorem containsSub_false_of_missing {p s : List Char} {ch : Char}
    (hin : ch ∈ p) (hout : ∀ c ∈ s, c ≠ ch) : containsSub p s = false := by
  induction s with
  | nil =>
    match p, hin with
    | x :: p', _ => rfl
  | cons c t ih =>
    have hpre : p.isPrefixOf (c :: t) = false := by
      by_contra hcon
      have h' : p.isPrefixOf (c :: t) = true := by
        revert hcon
        cases p.isPrefixOf (c :: t) <;> simp
      have hsub : p <+: (c :: t) := List.isPrefixOf_iff_prefix.mp h'
      exact hout ch (hsub.subset hin) rfl
    rw [containsSub_cons, hpre, Bool.false_or]
    exact ih (fun d hd => hout d (List.mem_cons_of_mem _ hd))

theorem containsSub_of_isPrefixOf {p s : List Char}
    (h : p.isPrefixOf s = true) : containsSub p s = true := by
  cases s with
  | nil =>
    cases p with
    | nil => rfl
    | cons x p' => simp [List.isPrefixOf] at h
  | cons c t => rw [containsSub_cons, h, Bool.true_or]

theorem replaceAll_of_not_contains {p : List Char} (r : List Char)
    {s : List Char} (h : containsSub p s = false) : replaceAll p r s = s := by
  induction s with
  | nil => rfl
  | cons c t ih =>
    rw [containsSub_cons, Bool.or_eq_false_iff] at h
    rw [replaceAll_skip r h.1, ih h.2]

theorem isPrefixOf_cons_false_of_head {p' t : List Char} {x c : Char}
    (h : x ≠ c) : (x :: p').isPrefixOf (c :: t) = false := by
  simp [List.isPrefixOf, beq_eq_false_iff_ne, h]

theorem replaceAll_append_head {p : List Char} (r : List Char)
    {a : List Char} (s : List Char) {x : Char} (hp : p.head? = some x)
    (h : ∀ c ∈ a, x ≠ c) :
    replaceAll p r (a ++ s) = a ++ replaceAll p r s := by
  induction a with
  | nil => simp
  | cons c a' ih =>
    match p, hp with
    | x :: p', rfl =>
      have hpre : (x :: p').isPrefixOf (c :: (a' ++ s)) = false :=
        isPrefixOf_cons_false_of_head (h c (List.mem_cons_self c a'))
      rw [List.cons_append, replaceAll_skip r hpre,
        ih (fun d hd => h d (List.mem_cons_of_mem _ hd))]
      rfl

theorem containsSub_append_head {p a : List Char} (s : List Char) {x : Char}
    (hp : p.head? = some x) (h : ∀ c ∈ a, x ≠ c) :
    containsSub p (a ++ s) = containsSub p s := by
  induction a with
  | nil => simp
  | cons c a' ih =>
    match p, hp with
    | x :: p', rfl =>
      have hpre : (x :: p').isPrefixOf (c :: (a' ++ s)) = false :=
        isPrefixOf_cons_false_of_head (h c (List.mem_cons_self c a'))
      rw [List.cons_append, containsSub_cons, hpre, Bool.false_or,
        ih (fun d hd => h d (List.mem_cons_of_mem _ hd))]

theorem all_digit_ne {a : List Char} (ha : a.all isDigitC = true) {x : Char}
    (hx : isDigitC x = false) : ∀ c ∈ a, x ≠ c := by
  intro c hc
  exact (ne_of_isDigitC (List.all_eq_true.mp ha c hc) hx).symm

theorem all_digit_ne' {a : List Char} (ha : a.all isDigitC = true) {x : Char}
    (hx : isDigitC x = false) : ∀ c ∈ a, c ≠ x := by
  intro c hc
  exact ne_of_isDigitC (List.all_eq_true.mp ha c hc) hx

theorem splitOnSubF_congr (sep : List Char) :
    ∀ (f1 f2 : Nat) (s : List Char), s.length ≤ f1 → s.length ≤ f2 →
      splitOnSubF sep f1 s = splitOnSubF sep f2 s := by
  intro f1
  induction f1 with
  | zero =>
    intro f2 s h1 _
    have hs : s = [] := List.length_eq_zero.mp (Nat.le_zero.mp h1)
    subst hs
    cases f2 <;> rfl
  | succ f1 ih =>
    intro f2 s h1 h2
    match s with
    | [] => cases f2 <;> rfl
    | c :: t =>
      match f2 with
      | 0 => exact absurd h2 (by simp)
      | f2 + 1 =>
        simp only [List.length_cons] at h1 h2
        simp only [splitOnSubF]
        by_cases hc : (!sep.isEmpty && sep.isPrefixOf (c :: t)) = true
        · rw [if_pos hc, if_pos hc]
          have hp : sep ≠ [] := by
            intro h
            subst h
            simp at hc
          have hplen : 1 ≤ sep.length := List.length_pos.mpr hp
          have hd : ((c :: t).drop sep.length).length ≤ f1 := by
            rw [List.length_drop]
            simp only [List.length_cons]
            omega
          have hd2 : ((c :: t).drop sep.length).length ≤ f2 := by
            rw [List.length_drop]
            simp only [List.length_cons]
            omega
          rw [ih f2 _ hd hd2]
        · rw [if_neg hc, if_neg hc]
          rw [ih f2 t (by omega) (by omega)]

theorem splitOnSub_skip {sep : List Char} {c : Char} {t h : List Char}
    {tl : List (List Char)} (hpre : sep.isPrefixOf (c :: t) = false)
    (ht : splitOnSub sep t = h :: tl) :
    splitOnSub sep (c :: t) = (c :: h) :: tl := by
  unfold splitOnSub at ht ⊢
  simp only [List.length_cons, splitOnSubF, hpre, Bool.and_false,
    Bool.false_eq_true, if_false]
  rw [ht]

theorem splitOnSub_fire {sep : List Char} (s : List Char) (hp : sep ≠ []) :
    splitOnSub sep (sep ++ s) = [] :: splitOnSub sep s := by
  match sep, hp with
  | x :: p', _ =>
    have hpre : (x :: p').isPrefixOf (x :: (p' ++ s)) = true := by
      rw [← List.cons_append]
      exact List.isPrefixOf_iff_prefix.mpr (List.prefix_append _ _)
    have hdrop : (x :: (p' ++ s)).drop (p'.length + 1) = s := by
      rw [List.drop_succ_cons]
      exact List.drop_left p' s
    unfold splitOnSub
    rw [List.cons_append]
    simp only [List.length_cons, splitOnSubF]
    rw [if_pos (by simp [hpre]), hdrop]
    congr 1
    exact splitOnSubF_congr _ _ _ _ (by simp) le_rfl

theorem splitOnSub_ne_nil (sep s : List Char) : splitOnSub sep s ≠ [] := by
  unfold splitOnSub
  generalize hf : s.length = fuel
  clear hf
  induction fuel generalizing s with
  | zero => cases s <;> simp [splitOnSubF]
  | succ fuel ih =>
    match s with
    | [] => simp [splitOnSubF]
    | c :: t =>
      simp only [splitOnSubF]
      by_cases hc : (!sep.isEmpty && sep.isPrefixOf (c :: t)) = true
      · rw [if_pos hc]
        simp
      · rw [if_neg hc]
        rcases h : splitOnSubF sep fuel t with _ | ⟨h1, tl⟩ <;> simp

theorem splitOnSub_of_not_contains {sep s : List Char}
    (h : containsSub sep s = false) : splitOnSub sep s = [s] := by
  induction s with
  | nil => rfl
  | cons c t ih =>
    rw [containsSub_cons, Bool.or_eq_false_iff] at h
    exact splitOnSub_skip h.1 (ih h.2)

theorem splitOnSub_append_head {sep : List Char} {a : List Char}
    (s : List Char) {x : Char} (hp : sep.head? = some x)
    (hhead : ∀ c ∈ a, x ≠ c) {h : List Char} {tl : List (List Char)}
    (hs : splitOnSub sep s = h :: tl) :
    splitOnSub sep (a ++ s) = (a ++ h) :: tl := by
  induction a with
  | nil => simpa using hs
  | cons c a' ih =>
    match sep, hp with
    | x :: p', rfl =>
      have hpre : (x :: p').isPrefixOf (c :: (a' ++ s)) = false :=
        isPrefixOf_cons_false_of_head (hhead c (List.mem_cons_self c a'))
      rw [List.cons_append]
      rw [splitOnSub_skip hpre (ih (fun d hd => hhead d (List.mem_cons_of_mem _ hd)))]
      rfl

theorem splitOnChar_fire (sep : Char) (t : List Char) :
    splitOnChar sep (sep :: t) = [] :: splitOnChar sep t := by
  simp [splitOnChar]

theorem splitOnChar_skip {sep c : Char} {t h : List Char}
    {tl : List (List Char)} (hc : c ≠ sep) (ht : splitOnChar sep t = h :: tl) :
    splitOnChar sep (c :: t) = (c :: h) :: tl := by
  simp only [splitOnChar, beq_eq_false_iff_ne.mpr hc, Bool.false_eq_true,
    if_false]
  rw [ht]

theorem splitOnChar_of_not_mem {sep : Char} {s : List Char}
    (h : ∀ c ∈ s, c ≠ sep) : splitOnChar sep s = [s] := by
  induction s with
  | nil => rfl
  | cons c t ih =>
    exact splitOnChar_skip (h c (List.mem_cons_self c t))
      (ih (fun d hd => h d (List.mem_cons_of_mem _ hd)))

theorem splitOnChar_append {sep : Char} {a : List Char} (s : List Char)
    (hhead : ∀ c ∈ a, c ≠ sep) {h : List Char} {tl : List (List Char)}
    (hs : splitOnChar sep s = h :: tl) :
    splitOnChar sep (a ++ s) = (a ++ h) :: tl := by
  induction a with
  | nil => simpa using hs
  | cons c a' ih =>
    rw [List.cons_append]
    rw [splitOnChar_skip (hhead c (List.mem_cons_self c a'))
      (ih (fun d hd => hhead d (List.mem_cons_of_mem _ hd)))]
    rfl

theorem pyLStrip_cons_neg {c : Char} {t : List Char}
    (h : isPySpace c = false) : pyLStrip (c :: t) = c :: t := by
  simp [pyLStrip, List.dropWhile_cons, h]

theorem pyRStrip_concat_neg {m : List Char} {d : Char}
    (h : isPySpace d = false) : pyRStrip (m ++ [d]) = m ++ [d] := by
  simp [pyRStrip, List.dropWhile_cons, h]

theorem digits_concat {a : List Char} (ha : a.all isDigitC = true)
    (hne : a ≠ []) :
    ∃ m d, a = m ++ [d] ∧ isDigitC d = true := by
  rcases List.eq_nil_or_concat a with h | ⟨m, d, h⟩
  · exact absurd h hne
  · refine ⟨m, d, by simpa [List.concat_eq_append] using h, ?_⟩
    have : d ∈ a := by
      rw [h]
      simp [List.concat_eq_append]
    exact List.all_eq_true.mp ha d this

theorem pyStrip_digits {a : List Char} (ha : a.all isDigitC = true)
    (hne : a ≠ []) : pyStrip a = a := by
  obtain ⟨m, d, rfl, hd⟩ := digits_concat ha hne
  rw [pyStrip, pyRStrip_concat_neg (isPySpace_of_digit hd)]
  cases m with
  | nil =>
    exact pyLStrip_cons_neg (isPySpace_of_digit hd)
  | cons c m' =>
    have hc : isDigitC c = true :=
      List.all_eq_true.mp ha c (by simp)
    rw [List.cons_append]
    exact pyLStrip_cons_neg (isPySpace_of_digit hc)

theorem pyStrip_digits_space {a : List Char} (ha : a.all isDigitC = true)
    (hne : a ≠ []) : pyStrip (a ++ [' ']) = a := by
  obtain ⟨m, d, he, hd⟩ := digits_concat ha hne
  have h1 : pyRStrip (a ++ [' ']) = a := by
    rw [pyRStrip, List.reverse_append]
    simp only [List.reverse_cons, List.reverse_nil, List.nil_append,
      List.singleton_append, List.dropWhile_cons]
    rw [if_pos (by decide)]
    rw [he, List.reverse_append]
    simp only [List.reverse_cons, List.reverse_nil, List.nil_append,
      List.singleton_append, List.dropWhile_cons]
    rw [if_neg (by simp [isPySpace_of_digit hd])]
    simp
  rw [pyStrip, h1]
  rw [he]
  cases m with
  | nil => exact pyLStrip_cons_neg (isPySpace_of_digit hd)
  | cons c m' =>
    have hc : isDigitC c = true := by
      apply List.all_eq_true.mp ha c
      rw [he]
      simp
    rw [List.cons_append]
    exact pyLStrip_cons_neg (isPySpace_of_digit hc)

theorem pyStrip_space_digits {b : List Char} (hb : b.all isDigitC = true)
    (hne : b ≠ []) : pyStrip (' ' :: b) = b := by
  obtain ⟨m, d, he, hd⟩ := digits_concat hb hne
  have h1 : pyRStrip (' ' :: b) = ' ' :: b := by
    have : (' ' :: b) = (' ' :: m) ++ [d] := by rw [he]; simp
    rw [this]
    exact pyRStrip_concat_neg (isPySpace_of_digit hd)
  rw [pyStrip, h1, pyLStrip, List.dropWhile_cons, if_pos (by decide)]
  cases b with
  | nil => exact absurd rfl hne
  | cons c b' =>
    have hc : isDigitC c = true := List.all_eq_true.mp hb c (by simp)
    rw [List.dropWhile_cons, if_neg (by simp [isPySpace_of_digit hc])]

theorem pyStrip_of_ends {c d : Char} {mid : List Char}
    (hc : isPySpace c = false) (hd : isPySpace d = false) :
    pyStrip (c :: (mid ++ [d])) = c :: (mid ++ [d]) := by
  have hsh : (c :: (mid ++ [d])) = (c :: mid) ++ [d] := by simp
  rw [pyStrip, hsh, pyRStrip_concat_neg hd, ← hsh, pyLStrip_cons_neg hc]

theorem rstripSemi_digits_semi {a : List Char} (ha : a.all isDigitC = true)
    (hne : a ≠ []) : rstripSemi (a ++ [';']) = a := by
  obtain ⟨m, d, he, hd⟩ := digits_concat ha hne
  rw [rstripSemi, List.reverse_append]
  simp only [List.reverse_cons, List.reverse_nil, List.nil_append,
    List.singleton_append, List.dropWhile_cons]
  rw [if_pos (by decide)]
  rw [he, List.reverse_append]
  simp only [List.reverse_cons, List.reverse_nil, List.nil_append,
    List.singleton_append, List.dropWhile_cons]
  rw [if_neg (by
    simp only [beq_iff_eq]
    exact ne_of_isDigitC hd (show isDigitC ';' = false by decide))]
  simp [he]

theorem handleReturn_of_no_return {s : List Char}
    (h : containsSub retKw s = false) : handleReturn s = s := by
  simp [handleReturn, h]

theorem mem_digitChars {c : Char} (h : isDigitC c = true) : c ∈ digitChars := by
  rcases digit_cases h with rfl|rfl|rfl|rfl|rfl|rfl|rfl|rfl|rfl|rfl <;> decide

theorem allowed_append {S a b : List Char} (ha : ∀ c ∈ a, c ∈ S)
    (hb : ∀ c ∈ b, c ∈ S) : ∀ c ∈ a ++ b, c ∈ S := by
  intro c hc
  rcases List.mem_append.mp hc with h | h
  exacts [ha c h, hb c h]

theorem allowed_digits {S a : List Char} (hsub : ∀ c ∈ digitChars, c ∈ S)
    (ha : a.all isDigitC = true) : ∀ c ∈ a, c ∈ S :=
  fun c hc => hsub c (mem_digitChars (List.all_eq_true.mp ha c hc))

theorem containsSub_false_charset {p s S : List Char} {x : Char}
    (hx : x ∈ p) (hxS : x ∉ S) (hs : ∀ c ∈ s, c ∈ S) :
    containsSub p s = false :=
  containsSub_false_of_missing hx (fun c hc he => hxS (he ▸ hs c hc))

theorem replaceAll_skip_charset {p s S : List Char} (r : List Char) {x : Char}
    (hx : x ∈ p) (hxS : x ∉ S) (hs : ∀ c ∈ s, c ∈ S) :
    replaceAll p r s = s :=
  replaceAll_of_not_contains r (containsSub_false_charset hx hxS hs)

theorem isPrefixOf_false_of_digits (p' : List Char) {b : List Char}
    (hb : b.all isDigitC = true) : ('=' :: p').isPrefixOf b = false := by
  cases b with
  | nil => rfl
  | cons d b' =>
    exact isPrefixOf_cons_false_of_head
      (ne_of_isDigitC (List.all_eq_true.mp hb d (by simp))
        (show isDigitC '=' = false by decide)).symm

theorem not_contains_eq3_one {b : List Char} (hb : b.all isDigitC = true) :
    containsSub ['=','=','='] ('=' :: b) = false := by
  have h1 : (['=','='] : List Char).isPrefixOf b = false := by
    simpa using isPrefixOf_false_of_digits ['='] hb
  have h0 : containsSub ['=','=','='] b = false :=
    containsSub_false_of_missing (show ('=' : Char) ∈ ['=','=','='] by decide)
      (all_digit_ne' hb (show isDigitC '=' = false by decide))
  simp [containsSub, List.isPrefixOf, h1, h0]

theorem not_contains_eq3_two {b : List Char} (hb : b.all isDigitC = true) :
    containsSub ['=','=','='] ('=' :: '=' :: b) = false := by
  have h1 : (['='] : List Char).isPrefixOf b = false := by
    simpa using isPrefixOf_false_of_digits [] hb
  have h0 := not_contains_eq3_one hb
  simp only [containsSub, List.isPrefixOf] at h0 ⊢
  simp_all

/-! ### Transpiler action on the comparison-operator script families
(claim C7): `A === B` / `A == B` / `A !== B` / `A != B` with digit-string
operands. -/

theorem applyReplacements_strict_eq {a b : List Char}
    (ha : a.all isDigitC = true) (hb : b.all isDigitC = true) :
    applyReplacements (a ++ (['=','=','='] ++ b)) = a ++ (['=','='] ++ b) := by
  have hS : ∀ c ∈ a ++ (['=','=','='] ++ b), c ∈ '=' :: digitChars :=
    allowed_append (allowed_digits (by decide) ha)
      (allowed_append (by decide) (allowed_digits (by decide) hb))
  have hS2 : ∀ c ∈ a ++ (['=','='] ++ b), c ∈ '=' :: digitChars :=
    allowed_append (allowed_digits (by decide) ha)
      (allowed_append (by decide) (allowed_digits (by decide) hb))
  have h8 : replaceAll ['=','=','='] ['=','='] (a ++ (['=','=','='] ++ b)) =
      a ++ (['=','='] ++ b) := by
    rw [replaceAll_append_head _ _ (show (['=','=','='] : List Char).head? = some '=' from rfl)
      (all_digit_ne ha (show isDigitC '=' = false by decide))]
    rw [replaceAll_fire _ _ (by decide)]
    rw [replaceAll_of_not_contains _ (containsSub_false_of_missing
      (show ('=' : Char) ∈ ['=','=','='] by decide)
      (all_digit_ne' hb (show isDigitC '=' = false by decide)))]
  simp only [applyReplacements, jsReplacements, List.foldl]
  rw [replaceAll_skip_charset _ (show ('w' : Char) ∈ _ by decide) (by decide) hS]
  rw [replaceAll_skip_charset _ (show ('c' : Char) ∈ _ by decide) (by decide) hS]
  rw [replaceAll_skip_charset _ (show ('c' : Char) ∈ _ by decide) (by decide) hS]
  rw [replaceAll_skip_charset _ (show ('c' : Char) ∈ _ by decide) (by decide) hS]
  rw [replaceAll_skip_charset _ (show ('c' : Char) ∈ _ by decide) (by decide) hS]
  rw [replaceAll_skip_charset _ (show ('l' : Char) ∈ _ by decide) (by decide) hS]
  rw [replaceAll_skip_charset _ (show ('v' : Char) ∈ _ by decide) (by decide) hS]
  rw [h8]
  rw [replaceAll_skip_charset _ (show ('!' : Char) ∈ _ by decide) (by decide) hS2]
  rw [replaceAll_skip_charset _ (show ('t' : Char) ∈ _ by decide) (by decide) hS2]
  rw [replaceAll_skip_charset _ (show ('f' : Char) ∈ _ by decide) (by decide) hS2]
  rw [replaceAll_skip_charset _ (show ('n' : Char) ∈ _ by decide) (by decide) hS2]

theorem applyReplacements_loose_eq {a b : List Char}
    (ha : a.all isDigitC = true) (hb : b.all isDigitC = true) :
    applyReplacements (a ++ (['=','='] ++ b)) = a ++ (['=','='] ++ b) := by
  have hS2 : ∀ c ∈ a ++ (['=','='] ++ b), c ∈ '=' :: digitChars :=
    allowed_append (allowed_digits (by decide) ha)
      (allowed_append (by decide) (allowed_digits (by decide) hb))
  have h8 : replaceAll ['=','=','='] ['=','='] (a ++ (['=','='] ++ b)) =
      a ++ (['=','='] ++ b) := by
    apply replaceAll_of_not_contains
    rw [containsSub_append_head _ (show (['=','=','='] : List Char).head? = some '=' from rfl)
      (all_digit_ne ha (show isDigitC '=' = false by decide))]
    exact not_contains_eq3_two hb
  simp only [applyReplacements, jsReplacements, List.foldl]
  rw [replaceAll_skip_charset _ (show ('w' : Char) ∈ _ by decide) (by decide) hS2]
  rw [replaceAll_skip_charset _ (show ('c' : Char) ∈ _ by decide) (by decide) hS2]
  rw [replaceAll_skip_charset _ (show ('c' : Char) ∈ _ by decide) (by decide) hS2]
  rw [replaceAll_skip_charset _ (show ('c' : Char) ∈ _ by decide) (by decide) hS2]
  rw [replaceAll_skip_charset _ (show ('c' : Char) ∈ _ by decide) (by decide) hS2]
  rw [replaceAll_skip_charset _ (show ('l' : Char) ∈ _ by decide) (by decide) hS2]
  rw [replaceAll_skip_charset _ (show ('v' : Char) ∈ _ by decide) (by decide) hS2]
  rw [h8]
  rw [replaceAll_skip_charset _ (show ('!' : Char) ∈ _ by decide) (by decide) hS2]
  rw [replaceAll_skip_charset _ (show ('t' : Char) ∈ _ by decide) (by decide) hS2]
  rw [replaceAll_skip_charset _ (show ('f' : Char) ∈ _ by decide) (by decide) hS2]
  rw [replaceAll_skip_charset _ (show ('n' : Char) ∈ _ by decide) (by decide) hS2]

theorem not_contains_eq3_bang2 {b : List Char} (hb : b.all isDigitC = true) :
    containsSub ['=','=','='] ('!' :: '=' :: '=' :: b) = false := by
  rw [containsSub_cons, isPrefixOf_cons_false_of_head (by decide), Bool.false_or]
  exact not_contains_eq3_two hb

theorem not_contains_eq3_bang1 {b : List Char} (hb : b.all isDigitC = true) :
    containsSub ['=','=','='] ('!' :: '=' :: b) = false := by
  rw [containsSub_cons, isPrefixOf_cons_false_of_head (by decide), Bool.false_or]
  exact not_contains_eq3_one hb

theorem not_contains_ne3_of_ne2 {b : List Char} (hb : b.all isDigitC = true) :
    containsSub ['!','=','='] ('!' :: '=' :: b) = false := by
  have h1 : (['='] : List Char).isPrefixOf b = false := by
    simpa using isPrefixOf_false_of_digits [] hb
  have h0 : containsSub ['!','=','='] b = false :=
    containsSub_false_of_missing (show ('!' : Char) ∈ ['!','=','='] by decide)
      (all_digit_ne' hb (show isDigitC '!' = false by decide))
  simp [containsSub, List.isPrefixOf, h1, h0]

theorem applyReplacements_strict_ne {a b : List Char}
    (ha : a.all isDigitC = true) (hb : b.all isDigitC = true) :
    applyReplacements (a ++ (['!','=','='] ++ b)) = a ++ (['!','='] ++ b) := by
  have hS : ∀ c ∈ a ++ (['!','=','='] ++ b), c ∈ '!' :: '=' :: digitChars :=
    allowed_append (allowed_digits (by decide) ha)
      (allowed_append (by decide) (allowed_digits (by decide) hb))
  have hS2 : ∀ c ∈ a ++ (['!','='] ++ b), c ∈ '!' :: '=' :: digitChars :=
    allowed_append (allowed_digits (by decide) ha)
      (allowed_append (by decide) (allowed_digits (by decide) hb))
  have h8 : replaceAll ['=','=','='] ['=','='] (a ++ (['!','=','='] ++ b)) =
      a ++ (['!','=','='] ++ b) := by
    apply replaceAll_of_not_contains
    rw [containsSub_append_head _ (show (['=','=','='] : List Char).head? = some '=' from rfl)
      (all_digit_ne ha (show isDigitC '=' = false by decide))]
    exact not_contains_eq3_bang2 hb
  have h9 : replaceAll ['!','=','='] ['!','='] (a ++ (['!','=','='] ++ b)) =
      a ++ (['!','='] ++ b) := by
    rw [replaceAll_append_head _ _ (show (['!','=','='] : List Char).head? = some '!' from rfl)
      (all_digit_ne ha (show isDigitC '!' = false by decide))]
    rw [replaceAll_fire _ _ (by decide)]
    rw [replaceAll_of_not_contains _ (containsSub_false_of_missing
      (show ('!' : Char) ∈ ['!','=','='] by decide)
      (all_digit_ne' hb (show isDigitC '!' = false by decide)))]
  simp only [applyReplacements, jsReplacements, List.foldl]
  rw [replaceAll_skip_charset _ (show ('w' : Char) ∈ _ by decide) (by decide) hS]
  rw [replaceAll_skip_charset _ (show ('c' : Char) ∈ _ by decide) (by decide) hS]
  rw [replaceAll_skip_charset _ (show ('c' : Char) ∈ _ by decide) (by decide) hS]
  rw [replaceAll_skip_charset _ (show ('c' : Char) ∈ _ by decide) (by decide) hS]
  rw [replaceAll_skip_charset _ (show ('c' : Char) ∈ _ by decide) (by decide) hS]
  rw [replaceAll_skip_charset _ (show ('l' : Char) ∈ _ by decide) (by decide) hS]
  rw [replaceAll_skip_charset _ (show ('v' : Char) ∈ _ by decide) (by decide) hS]
  rw [h8, h9]
  rw [replaceAll_skip_charset _ (show ('t' : Char) ∈ _ by decide) (by decide) hS2]
  rw [replaceAll_skip_charset _ (show ('f' : Char) ∈ _ by decide) (by decide) hS2]
  rw [replaceAll_skip_charset _ (show ('u' : Char) ∈ _ by decide) (by decide) hS2]

theorem applyReplacements_loose_ne {a b : List Char}
    (ha : a.all isDigitC = true) (hb : b.all isDigitC = true) :
    applyReplacements (a ++ (['!','='] ++ b)) = a ++ (['!','='] ++ b) := by
  have hS2 : ∀ c ∈ a ++ (['!','='] ++ b), c ∈ '!' :: '=' :: digitChars :=
    allowed_append (allowed_digits (by decide) ha)
      (allowed_append (by decide) (allowed_digits (by decide) hb))
  have h8 : replaceAll ['=','=','='] ['=','='] (a ++ (['!','='] ++ b)) =
      a ++ (['!','='] ++ b) := by
    apply replaceAll_of_not_contains
    rw [containsSub_append_head _ (show (['=','=','='] : List Char).head? = some '=' from rfl)
      (all_digit_ne ha (show isDigitC '=' = false by decide))]
    exact not_contains_eq3_bang1 hb
  have h9 : replaceAll ['!','=','='] ['!','='] (a ++ (['!','='] ++ b)) =
      a ++ (['!','='] ++ b) := by
    apply replaceAll_of_not_contains
    rw [containsSub_append_head _ (show (['!','=','='] : List Char).head? = some '!' from rfl)
      (all_digit_ne ha (show isDigitC '!' = false by decide))]
    exact not_contains_ne3_of_ne2 hb
  simp only [applyReplacements, jsReplacements, List.foldl]
  rw [replaceAll_skip_charset _ (show ('w' : Char) ∈ _ by decide) (by decide) hS2]
  rw [replaceAll_skip_charset _ (show ('c' : Char) ∈ _ by decide) (by decide) hS2]
  rw [replaceAll_skip_charset _ (show ('c' : Char) ∈ _ by decide) (by decide) hS2]
  rw [replaceAll_skip_charset _ (show ('c' : Char) ∈ _ by decide) (by decide) hS2]
  rw [replaceAll_skip_charset _ (show ('c' : Char) ∈ _ by decide) (by decide) hS2]
  rw [replaceAll_skip_charset _ (show ('l' : Char) ∈ _ by decide) (by decide) hS2]
  rw [replaceAll_skip_charset _ (show ('v' : Char) ∈ _ by decide) (by decide) hS2]
  rw [h8, h9]
  rw [replaceAll_skip_charset _ (show ('t' : Char) ∈ _ by decide) (by decide) hS2]
  rw [replaceAll_skip_charset _ (show ('f' : Char) ∈ _ by decide) (by decide) hS2]
  rw [replaceAll_skip_charset _ (show ('u' : Char) ∈ _ by decide) (by decide) hS2]

theorem convert_strict_eq {a b : List Char}
    (ha : a.all isDigitC = true) (hb : b.all isDigitC = true) :
    convertBasicJsToPython (a ++ (['=','=','='] ++ b)) = a ++ (['=','='] ++ b) := by
  have hS2 : ∀ c ∈ a ++ (['=','='] ++ b), c ∈ '=' :: digitChars :=
    allowed_append (allowed_digits (by decide) ha)
      (allowed_append (by decide) (allowed_digits (by decide) hb))
  rw [convertBasicJsToPython, applyReplacements_strict_eq ha hb,
    handleReturn_of_no_return
      (containsSub_false_charset (show ('r' : Char) ∈ retKw by decide) (by decide) hS2)]

theorem convert_loose_eq {a b : List Char}
    (ha : a.all isDigitC = true) (hb : b.all isDigitC = true) :
    convertBasicJsToPython (a ++ (['=','='] ++ b)) = a ++ (['=','='] ++ b) := by
  have hS2 : ∀ c ∈ a ++ (['=','='] ++ b), c ∈ '=' :: digitChars :=
    allowed_append (allowed_digits (by decide) ha)
      (allowed_append (by decide) (allowed_digits (by decide) hb))
  rw [convertBasicJsToPython, applyReplacements_loose_eq ha hb,
    handleReturn_of_no_return
      (containsSub_false_charset (show ('r' : Char) ∈ retKw by decide) (by decide) hS2)]

theorem convert_strict_ne {a b : List Char}
    (ha : a.all isDigitC = true) (hb : b.all isDigitC = true) :
    convertBasicJsToPython (a ++ (['!','=','='] ++ b)) = a ++ (['!','='] ++ b) := by
  have hS2 : ∀ c ∈ a ++ (['!','='] ++ b), c ∈ '!' :: '=' :: digitChars :=
    allowed_append (allowed_digits (by decide) ha)
      (allowed_append (by decide) (allowed_digits (by decide) hb))
  rw [convertBasicJsToPython, applyReplacements_strict_ne ha hb,
    handleReturn_of_no_return
      (containsSub_false_charset (show ('r' : Char) ∈ retKw by decide) (by decide) hS2)]

theorem allowed_ne {S s : List Char} (hs : ∀ c ∈ s, c ∈ S) {x : Char}
    (hx : x ∉ S) : ∀ c ∈ s, c ≠ x :=
  fun c hc he => hx (he ▸ hs c hc)

theorem allowed_append_ex (a b : List Char) {S : List Char}
    (ha : ∀ c ∈ a, c ∈ S) (hb : ∀ c ∈ b, c ∈ S) : ∀ c ∈ a ++ b, c ∈ S :=
  allowed_append ha hb

theorem pyStrip_eq_self_of_head_last {s : List Char} {c d : Char}
    (hhead : s.head? = some c) (hc : isPySpace c = false)
    (hlast : s.getLast? = some d) (hd : isPySpace d = false) :
    pyStrip s = s := by
  have h1 : pyRStrip s = s := by
    rw [pyRStrip]
    rcases hrev : s.reverse with _ | ⟨d', t'⟩
    · have : s = [] := by simpa using congrArg List.reverse hrev
      subst this
      simp at hhead
    · have hd' : d' = d := by
        have h := List.head?_reverse s
        rw [hrev, hlast] at h
        exact Option.some.inj h
      subst hd'
      rw [List.dropWhile_cons, if_neg (by simp [hd])]
      rw [← hrev, List.reverse_reverse]
  rw [pyStrip, h1]
  rcases s with _ | ⟨c', t⟩
  · simp at hhead
  · have hc' : c' = c := by simpa using hhead
    subst hc'
    exact pyLStrip_cons_neg hc

/-! ### Transpiler action on scripts containing the string literal `'true'`
(claim C10). -/

theorem replaceAll_true_literal {a b : List Char}
    (ha : a.all isDigitC = true) (hb : b.all isDigitC = true) :
    replaceAll ['t','r','u','e'] ['T','r','u','e']
      (a ++ ('\'' :: 't' :: 'r' :: 'u' :: 'e' :: '\'' :: b)) =
      a ++ ('\'' :: 'T' :: 'r' :: 'u' :: 'e' :: '\'' :: b) := by
  rw [replaceAll_append_head _ _
    (show (['t','r','u','e'] : List Char).head? = some 't' from rfl)
    (all_digit_ne ha (show isDigitC 't' = false by decide))]
  congr 1
  rw [replaceAll_skip _ (isPrefixOf_cons_false_of_head (by decide))]
  rw [show ('t' :: 'r' :: 'u' :: 'e' :: '\'' :: b) =
    ['t','r','u','e'] ++ ('\'' :: b) from rfl]
  rw [replaceAll_fire _ _ (by decide)]
  rw [replaceAll_skip _ (isPrefixOf_cons_false_of_head (by decide))]
  rw [replaceAll_of_not_contains _ (containsSub_false_of_missing
    (show ('t' : Char) ∈ ['t','r','u','e'] by decide)
    (all_digit_ne' hb (show isDigitC 't' = false by decide)))]
  rfl

theorem applyReplacements_true_literal {a b : List Char}
    (ha : a.all isDigitC = true) (hb : b.all isDigitC = true) :
    applyReplacements (a ++ ('\'' :: 't' :: 'r' :: 'u' :: 'e' :: '\'' :: b)) =
      a ++ ('\'' :: 'T' :: 'r' :: 'u' :: 'e' :: '\'' :: b) := by
  have hS : ∀ c ∈ a ++ ('\'' :: 't' :: 'r' :: 'u' :: 'e' :: '\'' :: b),
      c ∈ '\'' :: 't' :: 'r' :: 'u' :: 'e' :: digitChars :=
    allowed_append (allowed_digits (by decide) ha)
      (allowed_append_ex ['\'','t','r','u','e','\''] b (by decide)
        (allowed_digits (by decide) hb))
  have hS2 : ∀ c ∈ a ++ ('\'' :: 'T' :: 'r' :: 'u' :: 'e' :: '\'' :: b),
      c ∈ '\'' :: 'T' :: 'r' :: 'u' :: 'e' :: digitChars :=
    allowed_append (allowed_digits (by decide) ha)
      (allowed_append_ex ['\'','T','r','u','e','\''] b (by decide)
        (allowed_digits (by decide) hb))
  simp only [applyReplacements, jsReplacements, List.foldl]
  rw [replaceAll_skip_charset _ (show ('w' : Char) ∈ _ by decide) (by decide) hS]
  rw [replaceAll_skip_charset _ (show ('c' : Char) ∈ _ by decide) (by decide) hS]
  rw [replaceAll_skip_charset _ (show ('c' : Char) ∈ _ by decide) (by decide) hS]
  rw [replaceAll_skip_charset _ (show ('c' : Char) ∈ _ by decide) (by decide) hS]
  rw [replaceAll_skip_charset _ (show ('c' : Char) ∈ _ by decide) (by decide) hS]
  rw [replaceAll_skip_charset _ (show ('l' : Char) ∈ _ by decide) (by decide) hS]
  rw [replaceAll_skip_charset _ (show ('v' : Char) ∈ _ by decide) (by decide) hS]
  rw [replaceAll_skip_charset _ (show ('=' : Char) ∈ _ by decide) (by decide) hS]
  rw [replaceAll_skip_charset _ (show ('!' : Char) ∈ _ by decide) (by decide) hS]
  rw [replaceAll_true_literal ha hb]
  rw [replaceAll_skip_charset _ (show ('f' : Char) ∈ _ by decide) (by decide) hS2]
  rw [replaceAll_skip_charset _ (show ('n' : Char) ∈ _ by decide) (by decide) hS2]

theorem convert_true_literal {a b : List Char}
    (ha : a.all isDigitC = true) (hb : b.all isDigitC = true) :
    convertBasicJsToPython (a ++ ('\'' :: 't' :: 'r' :: 'u' :: 'e' :: '\'' :: b)) =
      a ++ ('\'' :: 'T' :: 'r' :: 'u' :: 'e' :: '\'' :: b) := by
  have hS2 : ∀ c ∈ a ++ ('\'' :: 'T' :: 'r' :: 'u' :: 'e' :: '\'' :: b),
      c ∈ '\'' :: 'T' :: 'r' :: 'u' :: 'e' :: digitChars :=
    allowed_append (allowed_digits (by decide) ha)
      (allowed_append_ex ['\'','T','r','u','e','\''] b (by decide)
        (allowed_digits (by decide) hb))
  rw [convertBasicJsToPython, applyReplacements_true_literal ha hb,
    handleReturn_of_no_return
      (containsSub_false_charset (show ('n' : Char) ∈ retKw by decide) (by decide) hS2)]

theorem convert_loose_ne {a b : List Char}
    (ha : a.all isDigitC = true) (hb : b.all isDigitC = true) :
    convertBasicJsToPython (a ++ (['!','='] ++ b)) = a ++ (['!','='] ++ b) := by
  have hS2 : ∀ c ∈ a ++ (['!','='] ++ b), c ∈ '!' :: '=' :: digitChars :=
    allowed_append (allowed_digits (by decide) ha)
      (allowed_append (by decide) (allowed_digits (by decide) hb))
  rw [convertBasicJsToPython, applyReplacements_loose_ne ha hb,
    handleReturn_of_no_return
      (containsSub_false_charset (show ('r' : Char) ∈ retKw by decide) (by decide) hS2)]

/-! ### The Python fallback on addition scripts `A + B` (claim C5). -/

theorem applyReplacements_addition {a b : List Char}
    (ha : a.all isDigitC = true) (hb : b.all isDigitC = true) :
    applyReplacements (a ++ (' ' :: '+' :: ' ' :: b)) =
      a ++ (' ' :: '+' :: ' ' :: b) := by
  have hS : ∀ c ∈ a ++ (' ' :: '+' :: ' ' :: b), c ∈ ' ' :: '+' :: digitChars :=
    allowed_append (allowed_digits (by decide) ha)
      (allowed_append_ex [' ','+',' '] b (by decide)
        (allowed_digits (by decide) hb))
  simp only [applyReplacements, jsReplacements, List.foldl]
  rw [replaceAll_skip_charset _ (show ('w' : Char) ∈ _ by decide) (by decide) hS]
  rw [replaceAll_skip_charset _ (show ('c' : Char) ∈ _ by decide) (by decide) hS]
  rw [replaceAll_skip_charset _ (show ('c' : Char) ∈ _ by decide) (by decide) hS]
  rw [replaceAll_skip_charset _ (show ('c' : Char) ∈ _ by decide) (by decide) hS]
  rw [replaceAll_skip_charset _ (show ('c' : Char) ∈ _ by decide) (by decide) hS]
  rw [replaceAll_skip_charset _ (show ('l' : Char) ∈ _ by decide) (by decide) hS]
  rw [replaceAll_skip_charset _ (show ('v' : Char) ∈ _ by decide) (by decide) hS]
  rw [replaceAll_skip_charset _ (show ('=' : Char) ∈ _ by decide) (by decide) hS]
  rw [replaceAll_skip_charset _ (show ('!' : Char) ∈ _ by decide) (by decide) hS]
  rw [replaceAll_skip_charset _ (show ('t' : Char) ∈ _ by decide) (by decide) hS]
  rw [replaceAll_skip_charset _ (show ('f' : Char) ∈ _ by decide) (by decide) hS]
  rw [replaceAll_skip_charset _ (show ('n' : Char) ∈ _ by decide) (by decide) hS]

theorem convert_addition {a b : List Char}
    (ha : a.all isDigitC = true) (hb : b.all isDigitC = true) :
    convertBasicJsToPython (a ++ (' ' :: '+' :: ' ' :: b)) =
      a ++ (' ' :: '+' :: ' ' :: b) := by
  have hS : ∀ c ∈ a ++ (' ' :: '+' :: ' ' :: b), c ∈ ' ' :: '+' :: digitChars :=
    allowed_append (allowed_digits (by decide) ha)
      (allowed_append_ex [' ','+',' '] b (by decide)
        (allowed_digits (by decide) hb))
  rw [convertBasicJsToPython, applyReplacements_addition ha hb,
    handleReturn_of_no_return
      (containsSub_false_charset (show ('r' : Char) ∈ retKw by decide) (by decide) hS)]

theorem splitOnChar_addition {a b : List Char}
    (ha : a.all isDigitC = true) (hb : b.all isDigitC = true) :
    splitOnChar '+' (a ++ (' ' :: '+' :: ' ' :: b)) =
      (a ++ [' ']) :: [' ' :: b] := by
  have h1 : splitOnChar '+' (' ' :: b) = [' ' :: b] := by
    apply splitOnChar_of_not_mem
    intro c hc
    rcases List.mem_cons.mp hc with rfl | h
    · decide
    · exact all_digit_ne' hb (show isDigitC '+' = false by decide) c h
  have h2 : splitOnChar '+' ('+' :: ' ' :: b) = [] :: [' ' :: b] := by
    rw [splitOnChar_fire, h1]
  have h3 : splitOnChar '+' (' ' :: '+' :: ' ' :: b) = [' '] :: [' ' :: b] :=
    splitOnChar_skip (by decide) h2
  exact splitOnChar_append _ (all_digit_ne' ha (show isDigitC '+' = false by decide)) h3

theorem pyEvalAddition_eval {a b : List Char}
    (ha : a.all isDigitC = true) (hb : b.all isDigitC = true)
    (hna : a ≠ []) (hnb : b ≠ []) :
    pyEvalAddition (a ++ (' ' :: '+' :: ' ' :: b)) =
      some (parseNatL a + parseNatL b) := by
  rw [pyEvalAddition, splitOnChar_addition ha hb]
  simp only [List.map_cons, List.map_nil, pyStrip_digits_space ha hna,
    pyStrip_space_digits hb hnb]
  rw [if_pos]
  · simp [List.sum_cons]
  · simp only [List.all_cons, List.all_nil, Bool.and_true]
    rw [List.isEmpty_eq_false.mpr hna, List.isEmpty_eq_false.mpr hnb]
    simp [ha, hb]

theorem pyStrip_addition_self {a b : List Char}
    (ha : a.all isDigitC = true) (hb : b.all isDigitC = true)
    (hna : a ≠ []) (hnb : b ≠ []) :
    pyStrip (a ++ (' ' :: '+' :: ' ' :: b)) = a ++ (' ' :: '+' :: ' ' :: b) := by
  obtain ⟨m, d, hbe, hd⟩ := digits_concat hb hnb
  rcases a with _ | ⟨c, a'⟩
  · exact absurd rfl hna
  · have hc : isDigitC c = true := List.all_eq_true.mp ha c (by simp)
    apply pyStrip_eq_self_of_head_last (d := d)
    · rfl
    · exact isPySpace_of_digit hc
    · rw [hbe]
      rw [show (c :: a') ++ (' ' :: '+' :: ' ' :: (m ++ [d])) =
        ((c :: a') ++ (' ' :: '+' :: ' ' :: m)) ++ [d] by simp]
      exact List.getLast?_concat _
    · exact isPySpace_of_digit hd

/-! ### The return-extraction family `return A; return B` (claim C9). -/

theorem pyStrip_digits_semi_space {a : List Char} (ha : a.all isDigitC = true)
    (hne : a ≠ []) : pyStrip (a ++ [';', ' ']) = a ++ [';'] := by
  obtain ⟨m, d, he, hd⟩ := digits_concat ha hne
  have h1 : pyRStrip (a ++ [';', ' ']) = a ++ [';'] := by
    rw [pyRStrip]
    rw [show a ++ [';', ' '] = (a ++ [';']) ++ [' '] by simp]
    rw [List.reverse_append]
    simp only [List.reverse_cons, List.reverse_nil, List.nil_append,
      List.singleton_append, List.dropWhile_cons]
    rw [if_pos (by decide)]
    rw [List.reverse_append]
    simp only [List.reverse_cons, List.reverse_nil, List.nil_append,
      List.singleton_append, List.dropWhile_cons]
    rw [if_neg (by decide)]
    simp
  rw [pyStrip, h1]
  cases a with
  | nil => exact absurd rfl hne
  | cons c a' =>
    have hc : isDigitC c = true := List.all_eq_true.mp ha c (by simp)
    rw [List.cons_append]
    exact pyLStrip_cons_neg (isPySpace_of_digit hc)

theorem containsSub_true_skip_retKw (rest : List Char) :
    containsSub ['t','r','u','e'] (retKw ++ rest) =
      containsSub ['t','r','u','e'] rest := by
  simp [retKw, containsSub, List.isPrefixOf]

theorem not_contains_true_returns {a b : List Char}
    (ha : a.all isDigitC = true) (hb : b.all isDigitC = true) :
    containsSub ['t','r','u','e']
      (retKw ++ (a ++ (';' :: ' ' :: (retKw ++ b)))) = false := by
  rw [containsSub_true_skip_retKw]
  rw [containsSub_append_head _
    (show (['t','r','u','e'] : List Char).head? = some 't' from rfl)
    (all_digit_ne ha (show isDigitC 't' = false by decide))]
  rw [containsSub_cons, isPrefixOf_cons_false_of_head (by decide), Bool.false_or]
  rw [containsSub_cons, isPrefixOf_cons_false_of_head (by decide), Bool.false_or]
  rw [containsSub_true_skip_retKw]
  exact containsSub_false_of_missing
    (show ('t' : Char) ∈ ['t','r','u','e'] by decide)
    (all_digit_ne' hb (show isDigitC 't' = false by decide))

theorem applyReplacements_returns {a b : List Char}
    (ha : a.all isDigitC = true) (hb : b.all isDigitC = true) :
    applyReplacements (retKw ++ (a ++ (';' :: ' ' :: (retKw ++ b)))) =
      retKw ++ (a ++ (';' :: ' ' :: (retKw ++ b))) := by
  have hS : ∀ c ∈ retKw ++ (a ++ (';' :: ' ' :: (retKw ++ b))),
      c ∈ 'r' :: 'e' :: 't' :: 'u' :: 'n' :: ' ' :: ';' :: digitChars :=
    allowed_append (by decide)
      (allowed_append (allowed_digits (by decide) ha)
        (allowed_append_ex [';',' '] (retKw ++ b) (by decide)
          (allowed_append (by decide) (allowed_digits (by decide) hb))))
  simp only [applyReplacements, jsReplacements, List.foldl]
  rw [replaceAll_skip_charset _ (show ('w' : Char) ∈ _ by decide) (by decide) hS]
  rw [replaceAll_skip_charset _ (show ('c' : Char) ∈ _ by decide) (by decide) hS]
  rw [replaceAll_skip_charset _ (show ('c' : Char) ∈ _ by decide) (by decide) hS]
  rw [replaceAll_skip_charset _ (show ('c' : Char) ∈ _ by decide) (by decide) hS]
  rw [replaceAll_skip_charset _ (show ('c' : Char) ∈ _ by decide) (by decide) hS]
  rw [replaceAll_skip_charset _ (show ('l' : Char) ∈ _ by decide) (by decide) hS]
  rw [replaceAll_skip_charset _ (show ('v' : Char) ∈ _ by decide) (by decide) hS]
  rw [replaceAll_skip_charset _ (show ('=' : Char) ∈ _ by decide) (by decide) hS]
  rw [replaceAll_skip_charset _ (show ('!' : Char) ∈ _ by decide) (by decide) hS]
  rw [replaceAll_of_not_contains _ (not_contains_true_returns ha hb)]
  rw [replaceAll_skip_charset _ (show ('f' : Char) ∈ _ by decide) (by decide) hS]
  rw [replaceAll_skip_charset _ (show ('l' : Char) ∈ _ by decide) (by decide) hS]

theorem splitOnSub_returns {a b : List Char}
    (ha : a.all isDigitC = true) (hb : b.all isDigitC = true) :
    splitOnSub retKw (retKw ++ (a ++ (';' :: ' ' :: (retKw ++ b)))) =
      [] :: ((a ++ [';', ' ']) :: [b]) := by
  have h0 : splitOnSub retKw b = [b] :=
    splitOnSub_of_not_contains (containsSub_false_of_missing
      (show ('r' : Char) ∈ retKw by decide)
      (all_digit_ne' hb (show isDigitC 'r' = false by decide)))
  have h1 : splitOnSub retKw (retKw ++ b) = [] :: [b] := by
    rw [splitOnSub_fire _ (by decide), h0]
  have h2 : splitOnSub retKw (' ' :: (retKw ++ b)) = [' '] :: [b] :=
    splitOnSub_skip (isPrefixOf_cons_false_of_head (by decide)) h1
  have h3 : splitOnSub retKw (';' :: ' ' :: (retKw ++ b)) = [';',' '] :: [b] :=
    splitOnSub_skip (isPrefixOf_cons_false_of_head (by decide)) h2
  have h4 : splitOnSub retKw (a ++ (';' :: ' ' :: (retKw ++ b))) =
      (a ++ [';',' ']) :: [b] :=
    splitOnSub_append_head _ (show retKw.head? = some 'r' from rfl)
      (all_digit_ne ha (show isDigitC 'r' = false by decide)) h3
  rw [splitOnSub_fire _ (by decide), h4]

theorem handleReturn_returns {a b : List Char}
    (ha : a.all isDigitC = true) (hb : b.all isDigitC = true)
    (hna : a ≠ []) (hnb : b ≠ []) :
    handleReturn (retKw ++ (a ++ (';' :: ' ' :: (retKw ++ b)))) = a := by
  have hS : ∀ c ∈ retKw ++ (a ++ (';' :: ' ' :: (retKw ++ b))),
      c ∈ 'r' :: 'e' :: 't' :: 'u' :: 'n' :: ' ' :: ';' :: digitChars :=
    allowed_append (by decide)
      (allowed_append (allowed_digits (by decide) ha)
        (allowed_append_ex [';',' '] (retKw ++ b) (by decide)
          (allowed_append (by decide) (allowed_digits (by decide) hb))))
  have hcont : containsSub retKw (retKw ++ (a ++ (';' :: ' ' :: (retKw ++ b)))) = true :=
    containsSub_of_isPrefixOf
      (List.isPrefixOf_iff_prefix.mpr (List.prefix_append _ _))
  have hstrip : pyStrip (retKw ++ (a ++ (';' :: ' ' :: (retKw ++ b)))) =
      retKw ++ (a ++ (';' :: ' ' :: (retKw ++ b))) := by
    obtain ⟨m, d, hbe, hd⟩ := digits_concat hb hnb
    apply pyStrip_eq_self_of_head_last (c := 'r') (d := d)
    · rfl
    · decide
    · rw [hbe]
      rw [show retKw ++ (a ++ (';' :: ' ' :: (retKw ++ (m ++ [d])))) =
        (retKw ++ (a ++ (';' :: ' ' :: (retKw ++ m)))) ++ [d] by simp]
      exact List.getLast?_concat _
    · exact isPySpace_of_digit hd
  have hdef : defKw.isPrefixOf (retKw ++ (a ++ (';' :: ' ' :: (retKw ++ b)))) = false := by
    simp [retKw, defKw, List.isPrefixOf]
  have hlines : splitOnChar '\n' (retKw ++ (a ++ (';' :: ' ' :: (retKw ++ b)))) =
      [retKw ++ (a ++ (';' :: ' ' :: (retKw ++ b)))] :=
    splitOnChar_of_not_mem (allowed_ne hS (by decide))
  have hhash : (['#'] : List Char).isPrefixOf
      (retKw ++ (a ++ (';' :: ' ' :: (retKw ++ b)))) = false := by
    simp [retKw, List.isPrefixOf]
  have hline : lineHasReturn (retKw ++ (a ++ (';' :: ' ' :: (retKw ++ b)))) = true := by
    rw [lineHasReturn, hcont, hstrip, hhash]
    rfl
  have hextract : extractReturn (retKw ++ (a ++ (';' :: ' ' :: (retKw ++ b)))) = a := by
    rw [extractReturn, splitOnSub_returns ha hb]
    simp only [List.getD_cons_succ, List.getD_cons_zero]
    rw [pyStrip_digits_semi_space ha hna, rstripSemi_digits_semi ha hna]
  rw [handleReturn, if_pos (by rw [hcont, hstrip, hdef]; rfl), hlines]
  rw [List.find?]
  rw [hline]
  exact hextract

theorem convert_returns {a b : List Char}
    (ha : a.all isDigitC = true) (hb : b.all isDigitC = true)
    (hna : a ≠ []) (hnb : b ≠ []) :
    convertBasicJsToPython (retKw ++ (a ++ (';' :: ' ' :: (retKw ++ b)))) = a := by
  rw [convertBasicJsToPython, applyReplacements_returns ha hb,
    handleReturn_returns ha hb hna hnb]

/-! ### Lock-discipline invariant of the interleaving model (claim C3). -/

theorem concRun_locked_invariant :
    ∀ (evs : List ConcEvent) (s0 s : ConcState),
      s0.lockedRunning = (if s0.lockHeld then 1 else 0) →
      concRun s0 evs = some s →
      s.lockedRunning = (if s.lockHeld then 1 else 0) := by
  intro evs
  induction evs with
  | nil =>
    intro s0 s h0 hrun
    simp only [concRun] at hrun
    exact (Option.some.inj hrun) ▸ h0
  | cons ev rest ih =>
    intro s0 s h0 hrun
    simp only [concRun] at hrun
    rcases hst : concStep s0 ev with _ | s1
    · rw [hst] at hrun
      cases hrun
    · rw [hst] at hrun
      refine ih s1 s ?_ hrun
      cases ev with
      | timerEnter =>
        simp only [concStep] at hst
        by_cases hl : s0.lockHeld
        · rw [if_pos hl] at hst
          cases hst
        · rw [if_neg hl] at hst
          rw [if_neg hl] at h0
          cases Option.some.inj hst
          simp [h0]
      | timerExit =>
        simp only [concStep] at hst
        by_cases hl : s0.lockedRunning = 0
        · rw [if_pos hl] at hst
          cases hst
        · rw [if_neg hl] at hst
          cases Option.some.inj hst
          by_cases hh : s0.lockHeld
          · rw [if_pos hh] at h0
            simp [h0]
          · rw [if_neg hh] at h0
            exact absurd h0 hl
      | manualEnter =>
        simp only [concStep] at hst
        cases Option.some.inj hst
        simpa using h0
      | manualExit =>
        simp only [concStep] at hst
        by_cases hm : s0.manualRunning = 0
        · rw [if_pos hm] at hst
          cases hst
        · rw [if_neg hm] at hst
          cases Option.some.inj hst
          simpa using h0

/-! ### Branch equations for `engineExecute` on non-empty scripts. -/

theorem engineExecute_nonempty_v8 {code : List Char}
    (h : (pyStrip code).isEmpty = false) (host : QueuedCall → Bool)
    (ev : V8Eval) (py : List Char → PyOutcome) :
    engineExecute true host ev py code =
      match ev with
      | .completes r calls => (.success r, calls.map (fun c => (c, host c)))
      | .timesOut => (.failure .runtimeErr (codeFailMsg ++ timeoutStr), [])
      | .raises m => (.failure .runtimeErr (codeFailMsg ++ m), []) := by
  unfold engineExecute
  rw [if_neg (by rw [h]; exact Bool.false_ne_true), if_pos rfl]

theorem engineExecute_nonempty_fallback {code : List Char}
    (h : (pyStrip code).isEmpty = false) (host : QueuedCall → Bool)
    (ev : V8Eval) (py : List Char → PyOutcome) :
    engineExecute false host ev py code =
      match py (convertBasicJsToPython code) with
      | .ok v => (.success v, [])
      | .raises m =>
        (.failure .runtimeErr (codeFailMsg ++ fallbackMsg ++ m), [])
      | .timesOut =>
        (.failure .runtimeErr (codeFailMsg ++ fallbackMsg ++ timeoutStr), []) := by
  unfold engineExecute
  rw [if_neg (by rw [h]; exact Bool.false_ne_true),
    if_neg (show ¬ (false = true) from Bool.false_ne_true)]

/-! ## The claims -/

/-- C1: the spec says the ticker self-stops exactly at 5 *consecutive*
failures and that a success resets the consecutive-failure count, so 5
failures with an intervening success must not disable the ticker.
`TickerInstance._execute` instead tests the cumulative `error_count`
(ticker_manager.py line 222) while its own comment at line 221 speaks of
"consecutive errors": after the outcome trace fail,fail,fail,fail,success,
fail — whose trailing consecutive-failure run has length 1 — the ticker has
stopped (`is_running = false`, timer cancelled) because the cumulative count
reached 5, and the success left the counter used for the threshold at 4
instead of resetting it (last conjunct: one failure then one success leaves
`error_count = 1`). -/
theorem uc1_cumulative_threshold_eval :
    (runTrace ((TickerInstance.init 30).start 0)
      [.failure ['e'], .failure ['e'], .failure ['e'], .failure ['e'],
       .success, .failure ['e']]).is_running = false ∧
    (runTrace ((TickerInstance.init 30).start 0)
      [.failure ['e'], .failure ['e'], .failure ['e'], .failure ['e'],
       .success, .failure ['e']]).hasTimer = false ∧
    (runTrace ((TickerInstance.init 30).start 0)
      [.failure ['e'], .failure ['e'], .failure ['e'], .failure ['e'],
       .success, .failure ['e']]).error_count = 5 ∧
    consecutiveFailures
      [.failure ['e'], .failure ['e'], .failure ['e'], .failure ['e'],
       .success, .failure ['e']] = 1 ∧
    (runTrace ((TickerInstance.init 30).start 0)
      [.failure ['e'], .success]).error_count = 1 := by
  decide

/-- C2 counterexample: one failing execution through the timer path on a
fresh entity/ticker.  The claim says the ticker's `error_count` is
incremented by one; in fact it stays 0 (the failure is swallowed inside
`_execute_typescript` and `execute_entity` before it can reach
`TickerInstance._execute`), and the error is recorded at the entity
instead. -/
theorem uc2_ticker_counters_unchanged_cex :
    ((tickerFire
        { typescript_code := ['x'], last_execution := none,
          execution_count := 0, last_error := none, display := .idle,
          execution_result := none }
        ((TickerInstance.init 30).start 0) true 1 true (fun _ => true)
        (.raises ['b','o','o','m']) (fun _ => .ok .null)).2).error_count = 0 ∧
    ¬ (((tickerFire
        { typescript_code := ['x'], last_execution := none,
          execution_count := 0, last_error := none, display := .idle,
          execution_result := none }
        ((TickerInstance.init 30).start 0) true 1 true (fun _ => true)
        (.raises ['b','o','o','m']) (fun _ => .ok .null)).2).error_count = 1) ∧
    ((tickerFire
        { typescript_code := ['x'], last_execution := none,
          execution_count := 0, last_error := none, display := .idle,
          execution_result := none }
        ((TickerInstance.init 30).start 0) true 1 true (fun _ => true)
        (.raises ['b','o','o','m']) (fun _ => .ok .null)).1).last_error =
      some (codeFailMsg ++ ['b','o','o','m']) := by
  decide

/-- C2 (amended): every script failure is absorbed before it reaches the
ticker.  `_execute_typescript` (sensor.py lines 188-192) catches the
engine's `RuntimeError` and records it on the *entity* (`last_error` set to
the message, state `"error"`, result cleared, `execution_count` incremented
even on failure); `TickerManager.execute_entity` catches anything else; the
`TickerInstance` therefore takes its success branch: its `error_count` is
unchanged, its `execution_count` is incremented and its `last_error` is
cleared.  No error propagates out of the ticker step (the composed step is
a total function). -/
theorem uc2_failure_recorded_at_entity (e : EntityState) (t : TickerInstance)
    (now : Int) (host : QueuedCall → Bool) (py : List Char → PyOutcome)
    (m : List Char) (h : (pyStrip e.typescript_code).isEmpty = false) :
    ((tickerFire e t true now true host (.raises m) py).1.last_error =
      some (codeFailMsg ++ m)) ∧
    ((tickerFire e t true now true host (.raises m) py).1.display =
      .errorDisplay) ∧
    ((tickerFire e t true now true host (.raises m) py).1.execution_count =
      e.execution_count + 1) ∧
    ((tickerFire e t true now true host (.raises m) py).1.execution_result =
      none) ∧
    ((tickerFire e t true now true host (.raises m) py).2.error_count =
      t.error_count) ∧
    ((tickerFire e t true now true host (.raises m) py).2.execution_count =
      t.execution_count + 1) ∧
    ((tickerFire e t true now true host (.raises m) py).2.last_error =
      none) ∧
    ((tickerFire e t true now true host (.raises m) py).2.is_running =
      t.is_running) := by
  simp [tickerFire, managerExecuteEntity, executeTypescript, engineExecute,
    TickerInstance.execStep, h]

/-- Witness for `uc2_failure_recorded_at_entity` at a concrete input. -/
theorem uc2_failure_recorded_at_entity_witness :
    (pyStrip (['x'] : List Char)).isEmpty = false ∧
    ((tickerFire
        { typescript_code := ['x'], last_execution := none,
          execution_count := 0, last_error := none, display := .idle,
          execution_result := none }
        (TickerInstance.init 30) true 0 true (fun _ => true)
        (.raises ['m']) (fun _ => .ok .null)).1.last_error =
      some (codeFailMsg ++ ['m'])) := by
  constructor
  · decide
  · exact (uc2_failure_recorded_at_entity
      { typescript_code := ['x'], last_execution := none,
        execution_count := 0, last_error := none, display := .idle,
        execution_result := none }
      (TickerInstance.init 30) 0 (fun _ => true) (fun _ => .ok .null) ['m']
      (by decide)).1

/-- C3 counterexample: the interleaving timer-fire-enters then
manual-execute-enters is accepted by the step relation (the manual path
acquires no lock) and reaches a state with two executions of the same
entity in flight, refuting "no two executions of that entity run
concurrently". -/
theorem uc3_concurrent_manual_timer_cex :
    concRun concInit [ConcEvent.timerEnter, ConcEvent.manualEnter] =
      some { lockHeld := true, lockedRunning := 1, manualRunning := 1 } ∧
    inFlight { lockHeld := true, lockedRunning := 1, manualRunning := 1 } = 2 ∧
    ¬ (inFlight { lockHeld := true, lockedRunning := 1, manualRunning := 1 } ≤ 1) := by
  decide

/-- C3 (amended): executions that go through `TickerInstance._execute`
(timer fires) are serialized by the per-entity lock — in every reachable
state at most one lock-guarded execution is in flight — but a manual
`execute_now` bypasses the lock (`execute_now_service` calls
`_execute_typescript` directly, __init__.py line 158), so a manual
execution can run concurrently with a timer-fired one. -/
theorem uc3_lock_serializes_timer_only :
    (∀ (evs : List ConcEvent) (s : ConcState),
      concRun concInit evs = some s → s.lockedRunning ≤ 1) ∧
    concRun concInit [ConcEvent.timerEnter, ConcEvent.manualEnter] =
      some { lockHeld := true, lockedRunning := 1, manualRunning := 1 } := by
  constructor
  · intro evs s h
    have hinv := concRun_locked_invariant evs concInit s (by simp [concInit]) h
    rw [hinv]
    split <;> omega
  · rfl

/-- Witness for `uc3_lock_serializes_timer_only` at a concrete run. -/
theorem uc3_lock_serializes_timer_only_witness :
    ({ lockHeld := true, lockedRunning := 1, manualRunning := 0 } : ConcState).lockedRunning ≤ 1 :=
  uc3_lock_serializes_timer_only.1 [ConcEvent.timerEnter]
    { lockHeld := true, lockedRunning := 1, manualRunning := 0 } (by decide)

/-- C4 counterexample: a timed-out evaluation of a non-empty script is
classified `RuntimeError` (execution_engine.py line 38 wraps the
`asyncio.TimeoutError` in `RuntimeError("Code execution failed: ...")`),
not `Timeout` — the engine defines no `Timeout` classification at all.  The
"zero dispatched calls" half of the claim does hold (third conjunct). -/
theorem uc4_timeout_kind_cex :
    (engineExecute true (fun _ => true) V8Eval.timesOut
      (fun _ => .ok .null) ['1']).1.kindOf = some .runtimeErr ∧
    some ErrKind.runtimeErr ≠ some ErrKind.timeoutErr ∧
    (engineExecute true (fun _ => true) V8Eval.timesOut
      (fun _ => .ok .null) ['1']).2 = [] := by
  decide

/-- C4 (amended): for every non-empty script whose evaluation times out,
`execute` raises `RuntimeError("Code execution failed: ...")` — classified
`RuntimeError`, since the engine has no distinct `Timeout` kind — and zero
queued calls are dispatched (the `asyncio.TimeoutError` propagates before
the dispatch loop at lines 226-235 is reached). -/
theorem uc4_timeout_runtime_error (code : List Char) (host : QueuedCall → Bool)
    (py : List Char → PyOutcome) (h : (pyStrip code).isEmpty = false) :
    engineExecute true host V8Eval.timesOut py code =
      (.failure .runtimeErr (codeFailMsg ++ timeoutStr), []) ∧
    ErrKind.runtimeErr ≠ ErrKind.timeoutErr := by
  refine ⟨?_, by decide⟩
  simp [engineExecute, h]

/-- Witness for `uc4_timeout_runtime_error` at a concrete input. -/
theorem uc4_timeout_runtime_error_witness :
    (pyStrip (['1'] : List Char)).isEmpty = false ∧
    engineExecute true (fun _ => true) V8Eval.timesOut (fun _ => .ok .null)
      ['1'] = (.failure .runtimeErr (codeFailMsg ++ timeoutStr), []) := by
  refine ⟨by decide, ?_⟩
  exact (uc4_timeout_runtime_error ['1'] (fun _ => true) (fun _ => .ok .null)
    (by decide)).1

/-- C5 counterexample: the expression script `1 + 2` (no `return`, no
control flow).  Under the V8 backend the wrapper at execution_engine.py
lines 196-213 embeds the script as the body of an inner function with no
implicit return, so `execute` returns `null`; the Python fallback's `eval`
does return the expression's value `3`.  The claim's "regardless of which
backend" is therefore false. -/
theorem uc5_v8_implicit_return_cex :
    (engineExecute true (fun _ => true) v8ExprStatementEval additionOracle
      ['1',' ','+',' ','2']).1 = .success .null ∧
    (engineExecute false (fun _ => true) v8ExprStatementEval additionOracle
      ['1',' ','+',' ','2']).1 = .success (.num 3) ∧
    JsValue.null ≠ JsValue.num 3 := by
  decide

/-- C5 (amended): the implicit-return rule holds only in the Python
fallback.  For every addition script `A + B` with non-empty digit-string
operands, the fallback (`eval` of the converted text) returns the
expression's value, while the V8 path — whose wrapper provides no implicit
return for an expression statement — returns `null`. -/
theorem uc5_fallback_implicit_return (a b : List Char)
    (host : QueuedCall → Bool)
    (ha : a.all isDigitC = true) (hb : b.all isDigitC = true)
    (hna : a ≠ []) (hnb : b ≠ []) :
    engineExecute false host v8ExprStatementEval additionOracle
      (a ++ (' ' :: '+' :: ' ' :: b)) =
      (.success (.num ((parseNatL a + parseNatL b : Nat) : Int)), []) ∧
    engineExecute true host v8ExprStatementEval additionOracle
      (a ++ (' ' :: '+' :: ' ' :: b)) = (.success .null, []) := by
  have hne : (pyStrip (a ++ (' ' :: '+' :: ' ' :: b))).isEmpty = false := by
    rw [pyStrip_addition_self ha hb hna hnb]
    cases a with
    | nil => exact absurd rfl hna
    | cons c a' => rfl
  have hor : additionOracle (a ++ (' ' :: '+' :: ' ' :: b)) =
      .ok (.num ((parseNatL a + parseNatL b : Nat) : Int)) := by
    unfold additionOracle
    rw [pyEvalAddition_eval ha hb hna hnb]
  constructor
  · rw [engineExecute_nonempty_fallback hne, convert_addition ha hb, hor]
  · rw [engineExecute_nonempty_v8 hne]
    rfl

/-- Witness for `uc5_fallback_implicit_return` at a concrete input. -/
theorem uc5_fallback_implicit_return_witness :
    (['1'] : List Char).all isDigitC = true ∧
    engineExecute false (fun _ => true) v8ExprStatementEval additionOracle
      (['1'] ++ (' ' :: '+' :: ' ' :: ['2'])) =
      (.success (.num ((parseNatL ['1'] + parseNatL ['2'] : Nat) : Int)), []) := by
  refine ⟨by decide, ?_⟩
  exact (uc5_fallback_implicit_return ['1'] ['2'] (fun _ => true)
    (by decide) (by decide) (by decide) (by decide)).1

/-- C6: the dispatch loop of `_execute_with_v8` (execution_engine.py lines
223-237) attempts every queued call in enqueue order regardless of per-call
host failures (each iteration has its own try/except), the returned value
is the evaluation result independent of the host's per-call outcomes, and
the loop is never reached when evaluation timed out or raised. -/
theorem uc6_dispatcher_contract (host host2 : QueuedCall → Bool)
    (r : JsValue) (calls : List QueuedCall) (py : List Char → PyOutcome)
    (m code : List Char) (h : (pyStrip code).isEmpty = false) :
    ((engineExecute true host (.completes r calls) py code).2.map Prod.fst =
      calls) ∧
    ((engineExecute true host (.completes r calls) py code).1 =
      .success r) ∧
    ((engineExecute true host2 (.completes r calls) py code).1 =
      (engineExecute true host (.completes r calls) py code).1) ∧
    ((engineExecute true host V8Eval.timesOut py code).2 = []) ∧
    ((engineExecute true host (.raises m) py code).2 = []) := by
  refine ⟨?_, ?_, ?_, ?_, ?_⟩
  · rw [engineExecute_nonempty_v8 h]
    rw [show ((match V8Eval.completes r calls with
      | V8Eval.completes r calls => ((EngineResult.success r : EngineResult),
          calls.map (fun c => (c, host c)))
      | V8Eval.timesOut => (.failure .runtimeErr (codeFailMsg ++ timeoutStr), [])
      | V8Eval.raises m => (.failure .runtimeErr (codeFailMsg ++ m), [])) :
        EngineResult × List (QueuedCall × Bool)).2 =
      calls.map (fun c => (c, host c)) from rfl]
    rw [List.map_map]
    exact List.map_id'' (fun _ => rfl) calls
  · rw [engineExecute_nonempty_v8 h]
  · rw [engineExecute_nonempty_v8 h, engineExecute_nonempty_v8 h]
  · rw [engineExecute_nonempty_v8 h]
  · rw [engineExecute_nonempty_v8 h]

/-- Witness for `uc6_dispatcher_contract` at a concrete input. -/
theorem uc6_dispatcher_contract_witness :
    (pyStrip (['1'] : List Char)).isEmpty = false ∧
    ((engineExecute true (fun _ => true)
      (.completes .null [{ domain := ['d'], service := ['s'], data := [] }])
      (fun _ => .ok .null) ['1']).2.map Prod.fst =
      [{ domain := ['d'], service := ['s'], data := [] }]) := by
  refine ⟨by decide, ?_⟩
  exact (uc6_dispatcher_contract (fun _ => true) (fun _ => true) .null
    [{ domain := ['d'], service := ['s'], data := [] }]
    (fun _ => .ok .null) ['m'] ['1'] (by decide)).1

/-- C7: the fallback transpiler maps `===` to `==` and `!==` to `!=`
(execution_engine.py lines 402-403) and leaves the loose forms unchanged,
so for every pair of digit-string operands the strict script and the loose
script convert to the *same* Python text — and hence evaluate to the same
result under the fallback evaluator. -/
theorem uc7_strict_loose_equal (a b : List Char)
    (ha : a.all isDigitC = true) (hb : b.all isDigitC = true) :
    convertBasicJsToPython (a ++ (['=','=','='] ++ b)) =
      convertBasicJsToPython (a ++ (['=','='] ++ b)) ∧
    convertBasicJsToPython (a ++ (['=','=','='] ++ b)) =
      a ++ (['=','='] ++ b) ∧
    convertBasicJsToPython (a ++ (['!','=','='] ++ b)) =
      convertBasicJsToPython (a ++ (['!','='] ++ b)) ∧
    convertBasicJsToPython (a ++ (['!','=','='] ++ b)) =
      a ++ (['!','='] ++ b) := by
  refine ⟨?_, convert_strict_eq ha hb, ?_, convert_strict_ne ha hb⟩
  · rw [convert_strict_eq ha hb, convert_loose_eq ha hb]
  · rw [convert_strict_ne ha hb, convert_loose_ne ha hb]

/-- Witness for `uc7_strict_loose_equal` at a concrete input. -/
theorem uc7_strict_loose_equal_witness :
    (['1'] : List Char).all isDigitC = true ∧
    convertBasicJsToPython (['1'] ++ (['=','=','='] ++ ['2'])) =
      convertBasicJsToPython (['1'] ++ (['=','='] ++ ['2'])) := by
  refine ⟨by decide, ?_⟩
  exact (uc7_strict_loose_equal ['1'] ['2'] (by decide) (by decide)).1

/-- C8: `restart_ticker` is literally `stop_ticker` followed by
`start_ticker` (ticker_manager.py lines 73-76), and for a positive interval
the restarted entity holds a freshly constructed, started `TickerInstance`:
`execution_count`, `error_count` are 0 and `last_error` is cleared (there is
no separate consecutive-error field in the code; the cumulative
`error_count = 0` also makes the derived consecutive-failure count 0). -/
theorem uc8_restart_resets (m : TickerMap) (e : String) (i now : Int)
    (h : 0 < i) :
    restartTickerMap m e i now = startTickerMap (stopTickerMap m e) e i now ∧
    lookupTicker (restartTickerMap m e i now) e =
      some ((TickerInstance.init i).start now) ∧
    ((TickerInstance.init i).start now).execution_count = 0 ∧
    ((TickerInstance.init i).start now).error_count = 0 ∧
    ((TickerInstance.init i).start now).last_error = none ∧
    ((TickerInstance.init i).start now).is_running = true := by
  have hni : ¬ (i ≤ 0) := by omega
  refine ⟨rfl, ?_,
    by simp [TickerInstance.init, TickerInstance.start],
    by simp [TickerInstance.init, TickerInstance.start],
    by simp [TickerInstance.init, TickerInstance.start],
    by simp [TickerInstance.init, TickerInstance.start]⟩
  rw [restartTickerMap, startTickerMap, if_neg hni]
  simp [lookupTicker, List.find?]

/-- Witness for `uc8_restart_resets` at a concrete input. -/
theorem uc8_restart_resets_witness :
    lookupTicker (restartTickerMap [] "e" 30 0) "e" =
      some ((TickerInstance.init 30).start 0) :=
  (uc8_restart_resets [] "e" 30 0 (by decide)).2.1

/-- C9 counterexample: for the script `return 1; return 2` the claim says
the conversion outputs all text following the first `return ` on the line
(`1; return 2`, as computed by `claimReturnExtract`), but
`line.split("return ")[1]` yields only the segment *between* the first and
second occurrence, so the code outputs `1`. -/
theorem uc9_split_segment_cex :
    convertBasicJsToPython
      ['r','e','t','u','r','n',' ','1',';',' ','r','e','t','u','r','n',' ','2'] =
      ['1'] ∧
    claimReturnExtract
      (applyReplacements
        ['r','e','t','u','r','n',' ','1',';',' ','r','e','t','u','r','n',' ','2']) =
      ['1',';',' ','r','e','t','u','r','n',' ','2'] ∧
    (['1'] : List Char) ≠ ['1',';',' ','r','e','t','u','r','n',' ','2'] := by
  decide

/-- C9 (amended): on a line `return A; return B` (digit-string statements)
the conversion's output is the segment between the first and the second
occurrence of `return ` — `line.split("return ")[1]`, whitespace-stripped
and with trailing semicolons removed — i.e. `A`; the rest of the line,
including everything after the second `return `, is discarded. -/
theorem uc9_between_returns (a b : List Char)
    (ha : a.all isDigitC = true) (hb : b.all isDigitC = true)
    (hna : a ≠ []) (hnb : b ≠ []) :
    convertBasicJsToPython (retKw ++ (a ++ (';' :: ' ' :: (retKw ++ b)))) =
      a :=
  convert_returns ha hb hna hnb

/-- Witness for `uc9_between_returns` at a concrete input. -/
theorem uc9_between_returns_witness :
    convertBasicJsToPython (retKw ++ (['1'] ++ (';' :: ' ' :: (retKw ++ ['2'])))) =
      ['1'] :=
  uc9_between_returns ['1'] ['2'] (by decide) (by decide) (by decide) (by decide)

/-- C10: the conversion is context-insensitive substring replacement: for
every script containing the string literal `'true'` (digit-string context),
the converted code contains `'True'` at that position — the contents of the
string literal are changed. -/
theorem uc10_replace_in_string_literal (a b : List Char)
    (ha : a.all isDigitC = true) (hb : b.all isDigitC = true) :
    convertBasicJsToPython
      (a ++ ('\'' :: 't' :: 'r' :: 'u' :: 'e' :: '\'' :: b)) =
      a ++ ('\'' :: 'T' :: 'r' :: 'u' :: 'e' :: '\'' :: b) :=
  convert_true_literal ha hb

/-- Witness for `uc10_replace_in_string_literal` at a concrete input. -/
theorem uc10_replace_in_string_literal_witness :
    convertBasicJsToPython
      (['1'] ++ ('\'' :: 't' :: 'r' :: 'u' :: 'e' :: '\'' :: ['2'])) =
      ['1'] ++ ('\'' :: 'T' :: 'r' :: 'u' :: 'e' :: '\'' :: ['2']) :=
  uc10_replace_in_string_literal ['1'] ['2'] (by decide) (by decide)

end UniControl
